import Mathlib

/-!
Verification of the rectangular region detectors of the rxing repository
(`src/common/detector/mod.rs`): the deprecated `MonochromeRectangleDetector`
and the `WhiteRectangleDetector`.

The embedding is a shallow one over exact integer arithmetic:

* A binarized image is a total function `Int → Int → Bool` together with a
  width and a height (`i32` values in the source are modelled as `Int`).
* Pixel probes are recorded in trace lists so that the memory-safety claim
  (every probe lands inside the image) can be stated.
* The `while` loops of the source are modelled by structural recursion on an
  explicit fuel argument.  The four border-growth loops and the scan loops of
  `blackWhiteRange` move one pixel per iteration towards a fixed bound, so
  their fuel is exactly the distance to that bound; the outer border-growth
  loop receives a caller-supplied fuel and returns `none` when it runs out.
* `MathUtils::distance` / `MathUtils::round` are not part of the sources of
  this repository; they are modelled from the spec (exact Euclidean distance,
  rounding to the nearest integer) in `distRound` and `intRound`.
-/

/-- A binarized image: `get x y = true` means the pixel is foreground
("black").  The source's `BitMatrix` getters `getWidth`/`getHeight` are the
fields `w`/`h`. -/
structure Img where
  w : Int
  h : Int
  get : Int → Int → Bool

abbrev Pt := Int × Int

/-- Integer square root by downward linear search (structurally recursive so
that the kernel can evaluate it; `Nat.sqrt` is defined by well-founded
recursion and does not reduce). -/
def isqrtGo (m : Nat) : Nat → Nat
  | 0 => 0
  | n + 1 => if (n + 1) * (n + 1) ≤ m then n + 1 else isqrtGo m n

def isqrt (m : Nat) : Nat := isqrtGo m m

theorem isqrtGo_le (m n : Nat) : isqrtGo m n ≤ n := by
  induction n with
  | zero => simp [isqrtGo]
  | succ k ih =>
    simp only [isqrtGo]
    split
    · exact Nat.le_refl _
    · exact Nat.le_trans ih (Nat.le_succ k)

theorem isqrtGo_sq_le (m n : Nat) : isqrtGo m n * isqrtGo m n ≤ m := by
  induction n with
  | zero => simp [isqrtGo]
  | succ k ih =>
    simp only [isqrtGo]
    split
    · assumption
    · exact ih

theorem isqrtGo_lt_succ_sq (m n : Nat) :
    isqrtGo m n = n ∨ m < (isqrtGo m n + 1) * (isqrtGo m n + 1) := by
  induction n with
  | zero => left; simp [isqrtGo]
  | succ k ih =>
    simp only [isqrtGo]
    split
    · left; rfl
    · rename_i hk
      rcases ih with h | h
      · right; rw [h]; omega
      · right; exact h

/-- `isqrt` satisfies the usual integer square-root specification. -/
theorem isqrt_spec (m : Nat) :
    isqrt m * isqrt m ≤ m ∧ m < (isqrt m + 1) * (isqrt m + 1) := by
  unfold isqrt
  refine ⟨isqrtGo_sq_le m m, ?_⟩
  rcases isqrtGo_lt_succ_sq m m with h | h
  · have h2 := isqrtGo_sq_le m m
    rw [h] at h2 ⊢
    nlinarith
  · exact h

/-- Modelled from the spec: `MathUtils::round` applied to the exact rational
value `num / den` (`den > 0`), i.e. the nearest integer
`⌊num/den + 1/2⌋ = ⌊(2*num + den) / (2*den)⌋`.  `Int` division `/` is
floor division for a positive divisor. -/
def intRound (num den : Int) : Int := (2 * num + den) / (2 * den)

/-- Modelled from the spec: the rounded Euclidean distance
`MathUtils::round(MathUtils::distance(aX, aY, bX, bY))` between two integer
points whose coordinate differences are `dx` and `dy`; exactly
`round (sqrt (dx^2 + dy^2))`. -/
def distRound (dx dy : Int) : Int :=
  ((isqrt ((dx * dx + dy * dy).toNat * 4) + 1) / 2 : Nat)

theorem intRound_add_mul (c num den : Int) (hden : 0 < den) :
    intRound (c * den + num) den = c + intRound num den := by
  unfold intRound
  rw [show 2 * (c * den + num) + den = (2 * num + den) + c * (2 * den) by ring]
  rw [Int.add_mul_ediv_right _ _ (by omega : (2:Int) * den ≠ 0)]
  ring

theorem intRound_nonneg (num den : Int) (h : 0 ≤ num) (hd : 0 < den) :
    0 ≤ intRound num den := by
  unfold intRound
  apply Int.ediv_nonneg <;> omega

/-- `intRound num den = j` as soon as `num/den` lies in `[j - 1/2, j + 1/2)`. -/
theorem intRound_eq (num den j : Int) (hd : 0 < den)
    (h1 : (2 * j - 1) * den ≤ 2 * num) (h2 : 2 * num < (2 * j + 1) * den) :
    intRound num den = j := by
  unfold intRound
  have hd2 : (0:Int) < 2 * den := by omega
  have hlo : j ≤ (2 * num + den) / (2 * den) := by
    rw [Int.le_ediv_iff_mul_le hd2]
    nlinarith
  have hhi : (2 * num + den) / (2 * den) < j + 1 := by
    rw [Int.ediv_lt_iff_lt_mul hd2]
    nlinarith
  omega

/-- Upper bound for `intRound`: if `2*num < (2*j + 1) * den` then
`intRound num den ≤ j`. -/
theorem intRound_le (num den j : Int) (hd : 0 < den)
    (h2 : 2 * num < (2 * j + 1) * den) :
    intRound num den ≤ j := by
  unfold intRound
  have hd2 : (0:Int) < 2 * den := by omega
  have hhi : (2 * num + den) / (2 * den) < j + 1 := by
    rw [Int.ediv_lt_iff_lt_mul hd2]
    nlinarith
  omega

/-- Lower bound for `intRound`: if `(2*j - 1) * den ≤ 2*num` then
`j ≤ intRound num den`. -/
theorem intRound_ge (num den j : Int) (hd : 0 < den)
    (h1 : (2 * j - 1) * den ≤ 2 * num) :
    j ≤ intRound num den := by
  unfold intRound
  have hd2 : (0:Int) < 2 * den := by omega
  have hlo : j ≤ (2 * num + den) / (2 * den) := by
    rw [Int.le_ediv_iff_mul_le hd2]
    nlinarith
  omega

theorem natDist_lemmas (n : Nat) (hn : 1 ≤ n) :
    n ≤ (isqrt (2 * n * n * 4) + 1) / 2 ∧
    (isqrt (2 * n * n * 4) + 1) / 2 ≤ 2 * n - 1 ∧
    (2 ≤ n → n + 1 ≤ (isqrt (2 * n * n * 4) + 1) / 2) := by
  obtain ⟨h1, h2⟩ := isqrt_spec (2 * n * n * 4)
  set s := isqrt (2 * n * n * 4) with hs
  have hnI : (1:Int) ≤ (n:Int) := by exact_mod_cast hn
  have h1I : (s:Int) * s ≤ 2 * n * n * 4 := by exact_mod_cast h1
  have h2I : 2 * (n:Int) * n * 4 < ((s:Int) + 1) * ((s:Int) + 1) := by
    exact_mod_cast h2
  refine ⟨?_, ?_, ?_⟩
  · -- n ≤ (s+1)/2, i.e. s + 1 ≥ 2n
    have hlb : 2 * n ≤ s + 1 := by
      by_contra hcon
      push_neg at hcon
      have hconI : (s:Int) + 1 < 2 * n := by exact_mod_cast hcon
      nlinarith
    omega
  · -- (s+1)/2 ≤ 2n - 1, i.e. s + 2 ≤ 4n
    have hub : s + 2 ≤ 4 * n := by
      by_contra hcon
      push_neg at hcon
      have hconI : 4 * (n:Int) ≤ (s:Int) + 1 := by exact_mod_cast by omega
      nlinarith
    omega
  · intro h2n
    have h2nI : (2:Int) ≤ (n:Int) := by exact_mod_cast h2n
    have hlb : 2 * n + 1 ≤ s := by
      by_contra hcon
      push_neg at hcon
      have hconI : (s:Int) + 1 ≤ 2 * n + 1 := by exact_mod_cast by omega
      nlinarith
    omega

/-- For the diagonal segments used in Phase 2 (`|dx| = |dy| = i`, `i ≥ 1`), the
rounded Euclidean distance `d = distRound dx dy` satisfies
`i ≤ d ≤ 2*i - 1`, and `i + 1 ≤ d` as soon as `i ≥ 2`. -/
theorem distRound_bounds (dx dy i : Int) (hi : 1 ≤ i)
    (h : dx * dx + dy * dy = 2 * i * i) :
    i ≤ distRound dx dy ∧ distRound dx dy ≤ 2 * i - 1 ∧
    (2 ≤ i → i + 1 ≤ distRound dx dy) := by
  unfold distRound
  have hiN : i = (i.toNat : Int) := by omega
  have harg : (dx * dx + dy * dy).toNat * 4 = 2 * i.toNat * i.toNat * 4 := by
    have hcast : ((2 * i.toNat * i.toNat : Nat) : Int) =
        2 * (i.toNat : Int) * (i.toNat : Int) := by push_cast; ring
    have h' : dx * dx + dy * dy = ((2 * i.toNat * i.toNat : Nat) : Int) := by
      rw [hcast, h, ← hiN]
    rw [h', Int.toNat_natCast]
  rw [harg]
  obtain ⟨l1, l2, l3⟩ := natDist_lemmas i.toNat (by omega)
  refine ⟨by omega, by omega, fun h2 => by
    have := l3 (by omega)
    omega⟩

/-- Existence of a step index `k` whose position along the segment rounds to
offset `j` on both axes simultaneously (strictly inside the rounding window,
so it is independent of the axis direction). -/
theorem exists_probe_index (i d j : Int) (hj1 : 1 ≤ j) (hji : j ≤ i - 1)
    (hdi : i + 1 ≤ d) :
    ∃ k : Int, 0 ≤ k ∧ k < d ∧
      (2 * j - 1) * d < 2 * (k * i) ∧ 2 * (k * i) < (2 * j + 1) * d := by
  have hi : 1 ≤ i := by omega
  have hd : 0 < d := by omega
  have h2i : (0:Int) < 2 * i := by omega
  set q := ((2 * j - 1) * d) / (2 * i) with hq
  set r := ((2 * j - 1) * d) % (2 * i) with hr
  have hdm : 2 * i * q + r = (2 * j - 1) * d := Int.ediv_add_emod _ _
  have hr0 : 0 ≤ r := Int.emod_nonneg _ (by omega)
  have hrlt : r < 2 * i := Int.emod_lt_of_pos _ h2i
  have hq0 : 0 ≤ q := Int.ediv_nonneg (by nlinarith) (by omega)
  refine ⟨q + 1, by omega, ?_, by nlinarith, by nlinarith⟩
  · -- q + 1 < d
    nlinarith

/-- One directional probe step of `containsBlackPoint`: the pixel probed when
the scanned coordinate is `pos` and the fixed coordinate is `fixed`. -/
def cbpPix (fixed : Int) (horizontal : Bool) (pos : Int) : Pt :=
  if horizontal then (pos, fixed) else (fixed, pos)

/-- The loop body of `WhiteRectangleDetector::containsBlackPoint`, scanning
positions `pos, pos+1, ...` (`fuel` of them) and stopping at the first
foreground pixel.  Returns the result together with the list of probed
pixels. -/
def cbpAux (img : Img) (fixed : Int) (horizontal : Bool) :
    Nat → Int → Bool × List Pt
  | 0, _ => (false, [])
  | fuel + 1, pos =>
    let p := cbpPix fixed horizontal pos
    if img.get p.1 p.2 then (true, [p])
    else
      let r := cbpAux img fixed horizontal fuel (pos + 1)
      (r.1, p :: r.2)

/-- `WhiteRectangleDetector::containsBlackPoint(a, b, fixed, horizontal)`:
scans the inclusive range `a..=b` (which has `(b - a + 1).toNat` entries). -/
def containsBlackPoint (img : Img) (a b fixed : Int) (horizontal : Bool) :
    Bool × List Pt :=
  cbpAux img fixed horizontal (b - a + 1).toNat a

/-- Result of one border-growth `while` loop: the final border position, the
final `atLeastOneBlackPointFound…` flag, whether the loop set
`aBlackPointFoundOnBorder` (i.e. some probe of this loop saw a foreground
pixel), and the probed pixels. -/
structure GrowRes where
  bound : Int
  found : Bool
  moved : Bool
  probes : List Pt

/-- The border-growth loop for a border that moves upward (`right`, `down`):
`while (notWhite || !found) && bound < lim { notWhite := probe bound;
if notWhite { bound += 1; found := true; moved := true }
else if !found { bound += 1 } }`.
The fuel is exactly the distance `(lim - bound).toNat`, so `fuel = 0` is
the `bound ≥ lim` exit. -/
def growUpAux (probe : Int → Bool × List Pt) : Nat → Int → Bool → GrowRes
  | 0, b, found => ⟨b, found, false, []⟩
  | fuel + 1, b, found =>
    let pr := probe b
    if pr.1 then
      let r := growUpAux probe fuel (b + 1) true
      ⟨r.bound, r.found, true, pr.2 ++ r.probes⟩
    else if found then ⟨b, found, false, pr.2⟩
    else
      let r := growUpAux probe fuel (b + 1) found
      ⟨r.bound, r.found, r.moved, pr.2 ++ r.probes⟩

def growUp (lim : Int) (probe : Int → Bool × List Pt) (b : Int) (found : Bool) :
    GrowRes :=
  growUpAux probe (lim - b).toNat b found

/-- The border-growth loop for a border that moves downward (`left`, `up`),
with lower limit `0` (`bound ≥ 0` is the loop guard).  The fuel is exactly
`(bound + 1).toNat`. -/
def growDownAux (probe : Int → Bool × List Pt) : Nat → Int → Bool → GrowRes
  | 0, b, found => ⟨b, found, false, []⟩
  | fuel + 1, b, found =>
    let pr := probe b
    if pr.1 then
      let r := growDownAux probe fuel (b - 1) true
      ⟨r.bound, r.found, true, pr.2 ++ r.probes⟩
    else if found then ⟨b, found, false, pr.2⟩
    else
      let r := growDownAux probe fuel (b - 1) found
      ⟨r.bound, r.found, r.moved, pr.2 ++ r.probes⟩

def growDown (probe : Int → Bool × List Pt) (b : Int) (found : Bool) :
    GrowRes :=
  growDownAux probe (b + 1).toNat b found

/-- The pixel value probed by `containsBlackPoint` at scanned coordinate
`x`. -/
def pixAt (img : Img) (fixed : Int) (horizontal : Bool) (x : Int) : Bool :=
  img.get (cbpPix fixed horizontal x).1 (cbpPix fixed horizontal x).2

theorem cbpAux_true (img : Img) (fixed : Int) (horizontal : Bool) :
    ∀ (fuel : Nat) (pos : Int),
      (cbpAux img fixed horizontal fuel pos).1 = true ↔
        ∃ x : Int, pos ≤ x ∧ x < pos + fuel ∧ pixAt img fixed horizontal x := by
  intro fuel
  induction fuel with
  | zero =>
    intro pos
    simp only [cbpAux]
    constructor
    · intro h; exact absurd h (by simp)
    · rintro ⟨x, h1, h2, _⟩; omega
  | succ n ih =>
    intro pos
    simp only [cbpAux]
    by_cases hg : img.get (cbpPix fixed horizontal pos).1
        (cbpPix fixed horizontal pos).2
    · simp only [hg, if_true]
      constructor
      · intro _; exact ⟨pos, le_refl _, by omega, hg⟩
      · intro _; trivial
    · simp only [hg, if_false, Bool.false_eq_true]
      rw [ih (pos + 1)]
      constructor
      · rintro ⟨x, h1, h2, h3⟩; exact ⟨x, by omega, by omega, h3⟩
      · rintro ⟨x, h1, h2, h3⟩
        refine ⟨x, ?_, by omega, h3⟩
        rcases eq_or_lt_of_le h1 with rfl | hlt
        · exact absurd h3 (by simpa [pixAt] using hg)
        · omega

theorem cbpAux_probes (img : Img) (fixed : Int) (horizontal : Bool) :
    ∀ (fuel : Nat) (pos : Int) (p : Pt),
      p ∈ (cbpAux img fixed horizontal fuel pos).2 →
        ∃ x : Int, pos ≤ x ∧ x < pos + fuel ∧ p = cbpPix fixed horizontal x := by
  intro fuel
  induction fuel with
  | zero => intro pos p h; simp [cbpAux] at h
  | succ n ih =>
    intro pos p h
    simp only [cbpAux] at h
    by_cases hg : img.get (cbpPix fixed horizontal pos).1
        (cbpPix fixed horizontal pos).2
    · simp only [hg, if_true, List.mem_singleton] at h
      exact ⟨pos, le_refl _, by omega, h⟩
    · simp only [hg, if_false, Bool.false_eq_true, List.mem_cons] at h
      rcases h with rfl | h
      · exact ⟨pos, le_refl _, by omega, rfl⟩
      · obtain ⟨x, h1, h2, h3⟩ := ih (pos + 1) p h
        exact ⟨x, by omega, by omega, h3⟩

/-- `containsBlackPoint` is true iff the inclusive range `a..=b` contains a
foreground pixel in the scanned direction. -/
theorem containsBlackPoint_true (img : Img) (a b fixed : Int)
    (horizontal : Bool) :
    (containsBlackPoint img a b fixed horizontal).1 = true ↔
      ∃ x : Int, a ≤ x ∧ x ≤ b ∧ pixAt img fixed horizontal x := by
  unfold containsBlackPoint
  rw [cbpAux_true]
  constructor
  · rintro ⟨x, h1, h2, h3⟩; exact ⟨x, h1, by omega, h3⟩
  · rintro ⟨x, h1, h2, h3⟩; exact ⟨x, h1, by omega, h3⟩

/-- Every pixel probed by `containsBlackPoint` lies in the scanned range. -/
theorem containsBlackPoint_probes (img : Img) (a b fixed : Int)
    (horizontal : Bool) (p : Pt)
    (h : p ∈ (containsBlackPoint img a b fixed horizontal).2) :
    ∃ x : Int, a ≤ x ∧ x ≤ b ∧ p = cbpPix fixed horizontal x := by
  obtain ⟨x, h1, h2, h3⟩ := cbpAux_probes img fixed horizontal _ a p h
  exact ⟨x, h1, by omega, h3⟩

theorem growUpAux_bound_ge (probe : Int → Bool × List Pt) :
    ∀ (fuel : Nat) (b : Int) (f : Bool), b ≤ (growUpAux probe fuel b f).bound := by
  intro fuel
  induction fuel with
  | zero => intro b f; simp [growUpAux]
  | succ n ih =>
    intro b f
    simp only [growUpAux]
    by_cases hp : (probe b).1 = true
    · simp only [hp, if_true]
      have := ih (b + 1) true
      omega
    · simp only [hp, if_false]
      by_cases hf : f = true
      · simp [hf]
      · simp only [Bool.not_eq_true] at hf
        simp only [hf, Bool.false_eq_true, if_false]
        have := ih (b + 1) false
        omega

theorem growUpAux_bound_le (probe : Int → Bool × List Pt) :
    ∀ (fuel : Nat) (b : Int) (f : Bool),
      (growUpAux probe fuel b f).bound ≤ b + fuel := by
  intro fuel
  induction fuel with
  | zero => intro b f; simp [growUpAux]
  | succ n ih =>
    intro b f
    simp only [growUpAux]
    by_cases hp : (probe b).1 = true
    · simp only [hp, if_true]
      have := ih (b + 1) true
      omega
    · simp only [hp, if_false]
      by_cases hf : f = true
      · rw [if_pos hf]
        show b ≤ b + ((n + 1 : Nat) : Int)
        omega
      · simp only [Bool.not_eq_true] at hf
        simp only [hf, Bool.false_eq_true, if_false]
        have := ih (b + 1) false
        omega

theorem growUpAux_found_of (probe : Int → Bool × List Pt) :
    ∀ (fuel : Nat) (b : Int), (growUpAux probe fuel b true).found = true := by
  intro fuel
  induction fuel with
  | zero => intro b; simp [growUpAux]
  | succ n ih =>
    intro b
    simp only [growUpAux]
    by_cases hp : (probe b).1 = true
    · simp only [hp, if_true]; exact ih (b + 1)
    · simp [hp]

theorem growUpAux_found_moved (probe : Int → Bool × List Pt) :
    ∀ (fuel : Nat) (b : Int) (f : Bool),
      (growUpAux probe fuel b f).found = true →
        f = true ∨ (growUpAux probe fuel b f).moved = true := by
  intro fuel
  induction fuel with
  | zero => intro b f h; simp only [growUpAux] at h; exact Or.inl h
  | succ n ih =>
    intro b f h
    simp only [growUpAux] at h ⊢
    by_cases hp : (probe b).1 = true
    · simp [hp]
    · simp only [hp, if_false] at h ⊢
      by_cases hf : f = true
      · exact Or.inl hf
      · simp only [Bool.not_eq_true] at hf
        subst hf
        simp only [Bool.false_eq_true, if_false] at h ⊢
        rcases ih (b + 1) false h with h1 | h1
        · exact absurd h1 (by simp)
        · exact Or.inr h1

theorem growUpAux_moved_bound (probe : Int → Bool × List Pt) :
    ∀ (fuel : Nat) (b : Int) (f : Bool),
      (growUpAux probe fuel b f).moved = true →
        b + 1 ≤ (growUpAux probe fuel b f).bound := by
  intro fuel
  induction fuel with
  | zero => intro b f h; simp [growUpAux] at h
  | succ n ih =>
    intro b f h
    simp only [growUpAux] at h ⊢
    by_cases hp : (probe b).1 = true
    · simp only [hp, if_true] at h ⊢
      have := growUpAux_bound_ge probe n (b + 1) true
      omega
    · simp only [hp, if_false] at h ⊢
      by_cases hf : f = true
      · simp [hf] at h
      · simp only [Bool.not_eq_true] at hf
        subst hf
        simp only [Bool.false_eq_true, if_false] at h ⊢
        have := ih (b + 1) false h
        omega

/-- When the growth loop stops strictly inside the image, the current border
scan was entirely background and the border has seen a foreground pixel on
some prior step (its `found` flag is set). -/
theorem growUpAux_stop (probe : Int → Bool × List Pt) (lim : Int) :
    ∀ (fuel : Nat) (b : Int) (f : Bool), fuel = (lim - b).toNat →
      (growUpAux probe fuel b f).bound < lim →
        (probe (growUpAux probe fuel b f).bound).1 = false ∧
          (growUpAux probe fuel b f).found = true := by
  intro fuel
  induction fuel with
  | zero =>
    intro b f hfuel hb
    simp only [growUpAux] at hb ⊢
    omega
  | succ n ih =>
    intro b f hfuel hb
    simp only [growUpAux] at hb ⊢
    by_cases hp : (probe b).1 = true
    · simp only [hp, if_true] at hb ⊢
      exact ih (b + 1) true (by omega) hb
    · simp only [hp, if_false] at hb ⊢
      by_cases hf : f = true
      · simp only [hf, if_true] at hb ⊢
        exact ⟨by simpa using hp, rfl⟩
      · simp only [Bool.not_eq_true] at hf
        subst hf
        simp only [Bool.false_eq_true, if_false] at hb ⊢
        exact ih (b + 1) false (by omega) hb

/-- When the growth loop stops strictly inside the image without having set
`aBlackPointFoundOnBorder`, nothing changed at all: the border did not move
and its `found` flag was already set (and the scan at the border was
background). -/
theorem growUpAux_nomove (probe : Int → Bool × List Pt) (lim : Int) :
    ∀ (fuel : Nat) (b : Int) (f : Bool), fuel = (lim - b).toNat →
      (growUpAux probe fuel b f).bound < lim →
      (growUpAux probe fuel b f).moved = false →
        (growUpAux probe fuel b f).bound = b ∧
          (growUpAux probe fuel b f).found = f ∧ f = true := by
  intro fuel
  induction fuel with
  | zero =>
    intro b f hfuel hb _
    simp only [growUpAux] at hb ⊢
    omega
  | succ n ih =>
    intro b f hfuel hb hm
    simp only [growUpAux] at hb hm ⊢
    by_cases hp : (probe b).1 = true
    · simp [hp] at hm
    · simp only [hp, if_false] at hb hm ⊢
      by_cases hf : f = true
      · simp only [hf, if_true] at hb hm ⊢
        exact ⟨rfl, rfl, trivial⟩
      · simp only [Bool.not_eq_true] at hf
        subst hf
        simp only [Bool.false_eq_true, if_false] at hb hm ⊢
        have hstop := growUpAux_stop probe lim n (b + 1) false (by omega) hb
        rcases growUpAux_found_moved probe n (b + 1) false hstop.2 with h1 | h1
        · exact absurd h1 (by simp)
        · exact absurd h1 (by simp [hm])

theorem growUpAux_probes (probe : Int → Bool × List Pt) :
    ∀ (fuel : Nat) (b : Int) (f : Bool) (p : Pt),
      p ∈ (growUpAux probe fuel b f).probes →
        ∃ x : Int, b ≤ x ∧ x < b + fuel ∧ p ∈ (probe x).2 := by
  intro fuel
  induction fuel with
  | zero => intro b f p h; simp [growUpAux] at h
  | succ n ih =>
    intro b f p h
    simp only [growUpAux] at h
    by_cases hp : (probe b).1 = true
    · simp only [hp, if_true, List.mem_append] at h
      rcases h with h | h
      · exact ⟨b, le_refl _, by omega, h⟩
      · obtain ⟨x, h1, h2, h3⟩ := ih (b + 1) true p h
        exact ⟨x, by omega, by omega, h3⟩
    · simp only [hp, if_false] at h
      by_cases hf : f = true
      · simp only [hf, if_true] at h
        exact ⟨b, le_refl _, by omega, h⟩
      · simp only [Bool.not_eq_true] at hf
        subst hf
        simp only [Bool.false_eq_true, if_false, List.mem_append] at h
        rcases h with h | h
        · exact ⟨b, le_refl _, by omega, h⟩
        · obtain ⟨x, h1, h2, h3⟩ := ih (b + 1) false p h
          exact ⟨x, by omega, by omega, h3⟩

/-- Transport of a border-adjacency invariant through the growth loop: if a
foreground probe at position `x` establishes `A (x + 1)`, then the `found`
flag implies `A` at the final border. -/
theorem growUpAux_adj (probe : Int → Bool × List Pt) (A : Int → Prop)
    (hA : ∀ x : Int, (probe x).1 = true → A (x + 1)) :
    ∀ (fuel : Nat) (b : Int) (f : Bool), (f = true → A b) →
      (growUpAux probe fuel b f).found = true →
        A (growUpAux probe fuel b f).bound := by
  intro fuel
  induction fuel with
  | zero => intro b f hf h; simp only [growUpAux] at h ⊢; exact hf h
  | succ n ih =>
    intro b f hf h
    simp only [growUpAux] at h ⊢
    by_cases hp : (probe b).1 = true
    · simp only [hp, if_true] at h ⊢
      exact ih (b + 1) true (fun _ => hA b hp) h
    · simp only [hp, if_false] at h ⊢
      by_cases hfv : f = true
      · simp only [hfv, if_true] at h ⊢
        exact hf hfv
      · simp only [Bool.not_eq_true] at hfv
        subst hfv
        simp only [Bool.false_eq_true, if_false] at h ⊢
        exact ih (b + 1) false (by simp) h

/-- On an all-background probe with the `found` flag unset, the loop walks all
the way to its limit without ever reporting a move. -/
theorem growUpAux_allwhite (probe : Int → Bool × List Pt)
    (hw : ∀ x : Int, (probe x).1 = false) :
    ∀ (fuel : Nat) (b : Int),
      (growUpAux probe fuel b false).bound = b + fuel ∧
        (growUpAux probe fuel b false).moved = false := by
  intro fuel
  induction fuel with
  | zero => intro b; simp [growUpAux]
  | succ n ih =>
    intro b
    simp only [growUpAux]
    have hp := hw b
    simp only [hp, Bool.false_eq_true, if_false]
    have := ih (b + 1)
    exact ⟨by omega, this.2⟩

theorem growDownAux_bound_le (probe : Int → Bool × List Pt) :
    ∀ (fuel : Nat) (b : Int) (f : Bool), (growDownAux probe fuel b f).bound ≤ b := by
  intro fuel
  induction fuel with
  | zero => intro b f; simp [growDownAux]
  | succ n ih =>
    intro b f
    simp only [growDownAux]
    by_cases hp : (probe b).1 = true
    · simp only [hp, if_true]
      have := ih (b - 1) true
      omega
    · simp only [hp, if_false]
      by_cases hf : f = true
      · rw [if_pos hf]
        show b ≤ b
        omega
      · simp only [Bool.not_eq_true] at hf
        simp only [hf, Bool.false_eq_true, if_false]
        have := ih (b - 1) false
        omega

theorem growDownAux_bound_ge (probe : Int → Bool × List Pt) :
    ∀ (fuel : Nat) (b : Int) (f : Bool),
      b - fuel ≤ (growDownAux probe fuel b f).bound := by
  intro fuel
  induction fuel with
  | zero => intro b f; simp [growDownAux]
  | succ n ih =>
    intro b f
    simp only [growDownAux]
    by_cases hp : (probe b).1 = true
    · simp only [hp, if_true]
      have := ih (b - 1) true
      omega
    · simp only [hp, if_false]
      by_cases hf : f = true
      · rw [if_pos hf]
        show b - ((n + 1 : Nat) : Int) ≤ b
        omega
      · simp only [Bool.not_eq_true] at hf
        simp only [hf, Bool.false_eq_true, if_false]
        have := ih (b - 1) false
        omega

theorem growDownAux_found_of (probe : Int → Bool × List Pt) :
    ∀ (fuel : Nat) (b : Int), (growDownAux probe fuel b true).found = true := by
  intro fuel
  induction fuel with
  | zero => intro b; simp [growDownAux]
  | succ n ih =>
    intro b
    simp only [growDownAux]
    by_cases hp : (probe b).1 = true
    · simp only [hp, if_true]; exact ih (b - 1)
    · simp [hp]

theorem growDownAux_found_moved (probe : Int → Bool × List Pt) :
    ∀ (fuel : Nat) (b : Int) (f : Bool),
      (growDownAux probe fuel b f).found = true →
        f = true ∨ (growDownAux probe fuel b f).moved = true := by
  intro fuel
  induction fuel with
  | zero => intro b f h; simp only [growDownAux] at h; exact Or.inl h
  | succ n ih =>
    intro b f h
    simp only [growDownAux] at h ⊢
    by_cases hp : (probe b).1 = true
    · simp [hp]
    · simp only [hp, if_false] at h ⊢
      by_cases hf : f = true
      · exact Or.inl hf
      · simp only [Bool.not_eq_true] at hf
        subst hf
        simp only [Bool.false_eq_true, if_false] at h ⊢
        rcases ih (b - 1) false h with h1 | h1
        · exact absurd h1 (by simp)
        · exact Or.inr h1

theorem growDownAux_moved_bound (probe : Int → Bool × List Pt) :
    ∀ (fuel : Nat) (b : Int) (f : Bool),
      (growDownAux probe fuel b f).moved = true →
        (growDownAux probe fuel b f).bound ≤ b - 1 := by
  intro fuel
  induction fuel with
  | zero => intro b f h; simp [growDownAux] at h
  | succ n ih =>
    intro b f h
    simp only [growDownAux] at h ⊢
    by_cases hp : (probe b).1 = true
    · simp only [hp, if_true] at h ⊢
      have := growDownAux_bound_le probe n (b - 1) true
      omega
    · simp only [hp, if_false] at h ⊢
      by_cases hf : f = true
      · simp [hf] at h
      · simp only [Bool.not_eq_true] at hf
        subst hf
        simp only [Bool.false_eq_true, if_false] at h ⊢
        have := ih (b - 1) false h
        omega

theorem growDownAux_stop (probe : Int → Bool × List Pt) :
    ∀ (fuel : Nat) (b : Int) (f : Bool), fuel = (b + 1).toNat →
      0 ≤ (growDownAux probe fuel b f).bound →
        (probe (growDownAux probe fuel b f).bound).1 = false ∧
          (growDownAux probe fuel b f).found = true := by
  intro fuel
  induction fuel with
  | zero =>
    intro b f hfuel hb
    simp only [growDownAux] at hb ⊢
    omega
  | succ n ih =>
    intro b f hfuel hb
    simp only [growDownAux] at hb ⊢
    by_cases hp : (probe b).1 = true
    · simp only [hp, if_true] at hb ⊢
      exact ih (b - 1) true (by omega) hb
    · simp only [hp, if_false] at hb ⊢
      by_cases hf : f = true
      · simp only [hf, Bool.false_eq_true, if_false, if_true] at hb ⊢
        constructor
        · simp_all
        · simp_all
      · simp only [Bool.not_eq_true] at hf
        subst hf
        simp only [Bool.false_eq_true, if_false] at hb ⊢
        exact ih (b - 1) false (by omega) hb

theorem growDownAux_nomove (probe : Int → Bool × List Pt) :
    ∀ (fuel : Nat) (b : Int) (f : Bool), fuel = (b + 1).toNat →
      0 ≤ (growDownAux probe fuel b f).bound →
      (growDownAux probe fuel b f).moved = false →
        (growDownAux probe fuel b f).bound = b ∧
          (growDownAux probe fuel b f).found = f ∧ f = true := by
  intro fuel
  induction fuel with
  | zero =>
    intro b f hfuel hb _
    simp only [growDownAux] at hb ⊢
    omega
  | succ n ih =>
    intro b f hfuel hb hm
    simp only [growDownAux] at hb hm ⊢
    by_cases hp : (probe b).1 = true
    · simp [hp] at hm
    · simp only [hp, if_false] at hb hm ⊢
      by_cases hf : f = true
      · simp only [hf, if_true] at hb hm ⊢
        exact ⟨rfl, rfl, trivial⟩
      · simp only [Bool.not_eq_true] at hf
        subst hf
        simp only [Bool.false_eq_true, if_false] at hb hm ⊢
        have hstop := growDownAux_stop probe n (b - 1) false (by omega) hb
        rcases growDownAux_found_moved probe n (b - 1) false hstop.2 with h1 | h1
        · exact absurd h1 (by simp)
        · exact absurd h1 (by simp [hm])

theorem growDownAux_probes (probe : Int → Bool × List Pt) :
    ∀ (fuel : Nat) (b : Int) (f : Bool) (p : Pt),
      p ∈ (growDownAux probe fuel b f).probes →
        ∃ x : Int, b - fuel < x ∧ x ≤ b ∧ p ∈ (probe x).2 := by
  intro fuel
  induction fuel with
  | zero => intro b f p h; simp [growDownAux] at h
  | succ n ih =>
    intro b f p h
    simp only [growDownAux] at h
    by_cases hp : (probe b).1 = true
    · simp only [hp, if_true, List.mem_append] at h
      rcases h with h | h
      · exact ⟨b, by omega, le_refl _, h⟩
      · obtain ⟨x, h1, h2, h3⟩ := ih (b - 1) true p h
        exact ⟨x, by omega, by omega, h3⟩
    · simp only [hp, if_false] at h
      by_cases hf : f = true
      · simp only [hf, if_true] at h
        exact ⟨b, by omega, le_refl _, h⟩
      · simp only [Bool.not_eq_true] at hf
        subst hf
        simp only [Bool.false_eq_true, if_false, List.mem_append] at h
        rcases h with h | h
        · exact ⟨b, by omega, le_refl _, h⟩
        · obtain ⟨x, h1, h2, h3⟩ := ih (b - 1) false p h
          exact ⟨x, by omega, by omega, h3⟩

theorem growDownAux_adj (probe : Int → Bool × List Pt) (A : Int → Prop)
    (hA : ∀ x : Int, (probe x).1 = true → A (x - 1)) :
    ∀ (fuel : Nat) (b : Int) (f : Bool), (f = true → A b) →
      (growDownAux probe fuel b f).found = true →
        A (growDownAux probe fuel b f).bound := by
  intro fuel
  induction fuel with
  | zero => intro b f hf h; simp only [growDownAux] at h ⊢; exact hf h
  | succ n ih =>
    intro b f hf h
    simp only [growDownAux] at h ⊢
    by_cases hp : (probe b).1 = true
    · simp only [hp, if_true] at h ⊢
      exact ih (b - 1) true (fun _ => hA b hp) h
    · simp only [hp, if_false] at h ⊢
      by_cases hfv : f = true
      · simp only [hfv, if_true] at h ⊢
        exact hf hfv
      · simp only [Bool.not_eq_true] at hfv
        subst hfv
        simp only [Bool.false_eq_true, if_false] at h ⊢
        exact ih (b - 1) false (by simp) h

theorem growDownAux_allwhite (probe : Int → Bool × List Pt)
    (hw : ∀ x : Int, (probe x).1 = false) :
    ∀ (fuel : Nat) (b : Int),
      (growDownAux probe fuel b false).bound = b - fuel ∧
        (growDownAux probe fuel b false).moved = false := by
  intro fuel
  induction fuel with
  | zero => intro b; simp [growDownAux]
  | succ n ih =>
    intro b
    simp only [growDownAux]
    have hp := hw b
    simp only [hp, Bool.false_eq_true, if_false]
    have := ih (b - 1)
    exact ⟨by omega, this.2⟩

/-- Vertical border scan (`horizontal = false` in the source): scans rows
`a..=b` of the column `fixed`. -/
def probeV (img : Img) (a b : Int) : Int → Bool × List Pt :=
  fun fixed => containsBlackPoint img a b fixed false

/-- Horizontal border scan (`horizontal = true` in the source): scans columns
`a..=b` of the row `fixed`. -/
def probeH (img : Img) (a b : Int) : Int → Bool × List Pt :=
  fun fixed => containsBlackPoint img a b fixed true

/-- The mutable state of `WhiteRectangleDetector::detect` Phase 1: the four
window bounds and the four `atLeastOneBlackPointFoundOn…` flags. -/
structure P1State where
  left : Int
  right : Int
  up : Int
  down : Int
  foundR : Bool
  foundB : Bool
  foundL : Bool
  foundT : Bool
  deriving DecidableEq

/-- One iteration of the outer `while (aBlackPointFoundOnBorder)` loop of
`WhiteRectangleDetector::detect`: grow right, bottom, left, top in this
order, checking after each growth whether the bound reached the image edge
(`sizeExceeded`, modelled as `Except.error`).  On success it returns the
value of `aBlackPointFoundOnBorder` after the pass together with the new
state.  The second component collects every pixel probed. -/
def phase1Step (img : Img) (w h : Int) (s : P1State) :
    Except Unit (Bool × P1State) × List Pt :=
  let gR := growUp w (probeV img s.up s.down) s.right s.foundR
  if w ≤ gR.bound then (.error (), gR.probes)
  else
    let gB := growUp h (probeH img s.left gR.bound) s.down s.foundB
    if h ≤ gB.bound then (.error (), gR.probes ++ gB.probes)
    else
      let gL := growDown (probeV img s.up gB.bound) s.left s.foundL
      if gL.bound < 0 then (.error (), gR.probes ++ gB.probes ++ gL.probes)
      else
        let gT := growDown (probeH img gL.bound gR.bound) s.up s.foundT
        if gT.bound < 0 then
          (.error (), gR.probes ++ gB.probes ++ gL.probes ++ gT.probes)
        else
          (.ok (gR.moved || gB.moved || gL.moved || gT.moved,
              ⟨gL.bound, gR.bound, gT.bound, gB.bound,
               gR.found, gB.found, gL.found, gT.found⟩),
            gR.probes ++ gB.probes ++ gL.probes ++ gT.probes)

/-- Phase 1 of `WhiteRectangleDetector::detect`: repeat `phase1Step` while a
border moved because of a foreground pixel (`aBlackPointFoundOnBorder`).
`none` means the caller-supplied fuel ran out; `some (.error ())` is the
`sizeExceeded` failure; `some (.ok s)` is the stabilized state. -/
def phase1 (img : Img) (w h : Int) : Nat → P1State → Option (Except Unit P1State) × List Pt
  | 0, _ => (none, [])
  | fuel + 1, s =>
    match phase1Step img w h s with
    | (.error _, tr) => (some (.error ()), tr)
    | (.ok (moved, s2), tr) =>
      if moved then
        let r := phase1 img w h fuel s2
        (r.1, tr ++ r.2)
      else (some (.ok s2), tr)

def INIT_SIZE : Int := 10

def CORR : Int := 1

/-- The `WhiteRectangleDetector` struct of the source. -/
structure WhiteRectangleDetector where
  image : Img
  height : Int
  width : Int
  leftInit : Int
  rightInit : Int
  downInit : Int
  upInit : Int

/-- `WhiteRectangleDetector::new(image, initSize, x, y)`.  `halfsize` is the
truncating `i32` division `initSize / 2`; construction fails with
`NotFoundException` (`none`) when the initial window leaves the image. -/
def WhiteRectangleDetector.new (image : Img) (initSize x y : Int) :
    Option WhiteRectangleDetector :=
  let height := image.h
  let width := image.w
  let halfsize := initSize.tdiv 2
  let leftInit := x - halfsize
  let rightInit := x + halfsize
  let upInit := y - halfsize
  let downInit := y + halfsize
  if upInit < 0 ∨ leftInit < 0 ∨ downInit ≥ height ∨ rightInit ≥ width then
    none
  else
    some ⟨image, height, width, leftInit, rightInit, downInit, upInit⟩

/-- `WhiteRectangleDetector::new_from_image`: auto-centered with
`INIT_SIZE`. -/
def WhiteRectangleDetector.new_from_image (image : Img) :
    Option WhiteRectangleDetector :=
  WhiteRectangleDetector.new image INIT_SIZE (image.w.tdiv 2) (image.h.tdiv 2)

/-- The pixel probed at step `k` of the rasterization of the segment from
`(aX, aY)` to `(bX, bY)` with step count `dist`: the source computes
`round(aX + k * (bX - aX) / dist)` (and likewise for `y`); over exact
arithmetic this is `intRound (aX * dist + k * (bX - aX)) dist`. -/
def segPoint (aX aY bX bY dist k : Int) : Pt :=
  (intRound (aX * dist + k * (bX - aX)) dist,
   intRound (aY * dist + k * (bY - aY)) dist)

/-- The `for i in 0..dist` loop of
`WhiteRectangleDetector::getBlackPointOnSegment`, stopping at the first
foreground pixel. -/
def gbposAux (img : Img) (aX aY bX bY dist : Int) :
    Nat → Int → Option Pt × List Pt
  | 0, _ => (none, [])
  | fuel + 1, k =>
    let p := segPoint aX aY bX bY dist k
    if img.get p.1 p.2 then (some p, [p])
    else
      let r := gbposAux img aX aY bX bY dist fuel (k + 1)
      (r.1, p :: r.2)

/-- `WhiteRectangleDetector::getBlackPointOnSegment`: rasterizes the segment
using the rounded Euclidean distance as step count and returns the first
foreground pixel hit (with the list of probed pixels). -/
def getBlackPointOnSegment (img : Img) (aX aY bX bY : Int) :
    Option Pt × List Pt :=
  let dist := distRound (bX - aX) (bY - aY)
  gbposAux img aX aY bX bY dist dist.toNat 0

/-- One of the four corner-scan loops of Phase 2:
`while r.is_none && i < maxSize { r = seg i; i += 1 }` starting at `i = 1`;
the fuel `(maxSize - 1).toNat` is the number of admissible offsets. -/
def scanCornerAux (seg : Int → Option Pt × List Pt) :
    Nat → Int → Option Pt × List Pt
  | 0, _ => (none, [])
  | fuel + 1, i =>
    match seg i with
    | (some p, tr) => (some p, tr)
    | (none, tr) =>
      let r := scanCornerAux seg fuel (i + 1)
      (r.1, tr ++ r.2)

def scanCorner (seg : Int → Option Pt × List Pt) (maxSize : Int) :
    Option Pt × List Pt :=
  scanCornerAux seg (maxSize - 1).toNat 1

/-- `WhiteRectangleDetector::centerEdges`: nudge the four Phase-2 points by
`CORR = 1` pixel on both axes; the sign table is chosen by the comparison
`yi < width / 2.0` of the source, which for the integer-valued `yi` is
exactly `2 * y.1 < width`.  The returned order is `[t', z', x', y']`. -/
def centerEdges (width : Int) (y z x t : Pt) : List Pt :=
  if 2 * y.1 < width then
    [(t.1 - CORR, t.2 + CORR), (z.1 + CORR, z.2 + CORR),
     (x.1 - CORR, x.2 - CORR), (y.1 + CORR, y.2 - CORR)]
  else
    [(t.1 + CORR, t.2 + CORR), (z.1 + CORR, z.2 - CORR),
     (x.1 - CORR, x.2 + CORR), (y.1 - CORR, y.2 - CORR)]

/-- The `z` scan of Phase 2 (`//go up right` in spirit: sweeping inward from
the bottom-left window corner): segments from `(left, down - i)` to
`(left + i, down)` for `i = 1, …, maxSize - 1` with `maxSize = right -
left`. -/
def zScan (img : Img) (left right up down : Int) : Option Pt × List Pt :=
  scanCorner
    (fun i => getBlackPointOnSegment img left (down - i) (left + i) down)
    (right - left)

/-- The `t` scan of Phase 2 (`//go down right`, from the top-left window
corner): segments from `(left, up + i)` to `(left + i, up)`. -/
def tScan (img : Img) (left right up down : Int) : Option Pt × List Pt :=
  scanCorner
    (fun i => getBlackPointOnSegment img left (up + i) (left + i) up)
    (right - left)

/-- The `x` scan of Phase 2 (`//go down left`, from the top-right window
corner): segments from `(right, up + i)` to `(right - i, up)`. -/
def xScan (img : Img) (left right up down : Int) : Option Pt × List Pt :=
  scanCorner
    (fun i => getBlackPointOnSegment img right (up + i) (right - i) up)
    (right - left)

/-- The `y` scan of Phase 2 (`//go up left`, from the bottom-right window
corner): segments from `(right, down - i)` to `(right - i, down)`. -/
def yScan (img : Img) (left right up down : Int) : Option Pt × List Pt :=
  scanCorner
    (fun i => getBlackPointOnSegment img right (down - i) (right - i) down)
    (right - left)

/-- Phase 2 of `WhiteRectangleDetector::detect`: the four diagonal corner
scans (from the bottom-left, top-left, top-right and bottom-right window
corners, in the order `z`, `t`, `x`, `y` of the source), failing with
`NotFoundException` when any scan finds no foreground pixel, and otherwise
returning `centerEdges`. -/
def phase2 (img : Img) (width left right up down : Int) :
    Except Unit (List Pt) × List Pt :=
  let zr := zScan img left right up down
  match zr.1 with
  | none => (.error (), zr.2)
  | some z =>
    let tsc := tScan img left right up down
    match tsc.1 with
    | none => (.error (), zr.2 ++ tsc.2)
    | some t =>
      let xsc := xScan img left right up down
      match xsc.1 with
      | none => (.error (), zr.2 ++ tsc.2 ++ xsc.2)
      | some x =>
        let ysc := yScan img left right up down
        match ysc.1 with
        | none => (.error (), zr.2 ++ tsc.2 ++ xsc.2 ++ ysc.2)
        | some y =>
          (.ok (centerEdges width y z x t), zr.2 ++ tsc.2 ++ xsc.2 ++ ysc.2)

/-- The initial Phase-1 state of a detect call. -/
def WhiteRectangleDetector.initState (d : WhiteRectangleDetector) : P1State :=
  ⟨d.leftInit, d.rightInit, d.upInit, d.downInit, false, false, false, false⟩

/-- `WhiteRectangleDetector::detect`, fuelled on the outer Phase-1 loop.
`none` means the fuel ran out; `some (.error ())` is `NotFoundException`;
`some (.ok pts)` is the returned quadrilateral.  The second component
collects every pixel probed via `image.get`. -/
def WhiteRectangleDetector.detect (d : WhiteRectangleDetector) (fuel : Nat) :
    Option (Except Unit (List Pt)) × List Pt :=
  let p1 := phase1 d.image d.width d.height fuel d.initState
  match p1.1 with
  | none => (none, p1.2)
  | some (.error _) => (some (.error ()), p1.2)
  | some (.ok s) =>
    let p2 := phase2 d.image d.width s.left s.right s.up s.down
    (some p2.1, p1.2 ++ p2.2)

instance : DecidableEq (Except Unit (List Pt)) := fun a b =>
  match a, b with
  | .error u, .error v => by cases u; cases v; exact isTrue rfl
  | .ok u, .ok v =>
    match decEq u v with
    | isTrue h => isTrue (by rw [h])
    | isFalse h => isFalse (by intro hc; cases hc; exact h rfl)
  | .error _, .ok _ => isFalse (by intro hc; cases hc)
  | .ok _, .error _ => isFalse (by intro hc; cases hc)

instance : DecidableEq (Except Unit P1State) := fun a b =>
  match a, b with
  | .error u, .error v => by cases u; cases v; exact isTrue rfl
  | .ok u, .ok v =>
    match decEq u v with
    | isTrue h => isTrue (by rw [h])
    | isFalse h => isFalse (by intro hc; cases hc; exact h rfl)
  | .error _, .ok _ => isFalse (by intro hc; cases hc)
  | .ok _, .error _ => isFalse (by intro hc; cases hc)

instance : DecidableEq (Except Unit Pt) := fun a b =>
  match a, b with
  | .error u, .error v => by cases u; cases v; exact isTrue rfl
  | .ok u, .ok v =>
    match decEq u v with
    | isTrue h => isTrue (by rw [h])
    | isFalse h => isFalse (by intro hc; cases hc; exact h rfl)
  | .error _, .ok _ => isFalse (by intro hc; cases hc)
  | .ok _, .error _ => isFalse (by intro hc; cases hc)

def MAX_MODULES : Int := 32

/-- The inner white-run loop of `MonochromeRectangleDetector::blackWhiteRange`
scanning towards `minDim`:
`while start >= minDim && !get(start) { start -= 1 }`. -/
def runWhiteNeg (img : Img) (fixedDim : Int) (horizontal : Bool) (minDim : Int) :
    Nat → Int → Int
  | 0, s => s
  | fuel + 1, s =>
    if s < minDim then s
    else if pixAt img fixedDim horizontal s then s
    else runWhiteNeg img fixedDim horizontal minDim fuel (s - 1)

/-- The `// Scan left/up first` loop of
`MonochromeRectangleDetector::blackWhiteRange`; returns the final value of
`start` (before the `start + 1` adjustment). -/
def scanNeg (img : Img) (fixedDim : Int) (horizontal : Bool)
    (minDim maxWhiteRun : Int) : Nat → Int → Int
  | 0, s => s
  | fuel + 1, s =>
    if s < minDim then s
    else if pixAt img fixedDim horizontal s then
      scanNeg img fixedDim horizontal minDim maxWhiteRun fuel (s - 1)
    else
      let wrs := s
      let s2 := runWhiteNeg img fixedDim horizontal minDim fuel (s - 1)
      if s2 < minDim ∨ wrs - s2 > maxWhiteRun then wrs
      else scanNeg img fixedDim horizontal minDim maxWhiteRun fuel s2

/-- The inner white-run loop scanning towards `maxDim`. -/
def runWhitePos (img : Img) (fixedDim : Int) (horizontal : Bool) (maxDim : Int) :
    Nat → Int → Int
  | 0, s => s
  | fuel + 1, s =>
    if maxDim ≤ s then s
    else if pixAt img fixedDim horizontal s then s
    else runWhitePos img fixedDim horizontal maxDim fuel (s + 1)

/-- The `// Then try right/down` loop of `blackWhiteRange`; returns the final
value of `end` (before the `end - 1` adjustment). -/
def scanPos (img : Img) (fixedDim : Int) (horizontal : Bool)
    (maxDim maxWhiteRun : Int) : Nat → Int → Int
  | 0, s => s
  | fuel + 1, s =>
    if maxDim ≤ s then s
    else if pixAt img fixedDim horizontal s then
      scanPos img fixedDim horizontal maxDim maxWhiteRun fuel (s + 1)
    else
      let wrs := s
      let s2 := runWhitePos img fixedDim horizontal maxDim fuel (s + 1)
      if maxDim ≤ s2 ∨ s2 - wrs > maxWhiteRun then wrs
      else scanPos img fixedDim horizontal maxDim maxWhiteRun fuel s2

/-- `MonochromeRectangleDetector::blackWhiteRange`: computes the start and end
of a mostly-foreground run around the center of `minDim..maxDim` (tolerating
embedded background runs of at most `maxWhiteRun`), or `none` when no such
range exists.  `center` is the truncating `i32` division of the source.  The
two scan loops move one pixel per iteration towards `minDim` (resp. `maxDim`),
so the supplied fuel (distance to the bound plus one) is sufficient. -/
def blackWhiteRange (img : Img) (fixedDimension maxWhiteRun minDim maxDim : Int)
    (horizontal : Bool) : Option (Int × Int) :=
  let center := (minDim + maxDim).tdiv 2
  let startRaw := scanNeg img fixedDimension horizontal minDim maxWhiteRun
    ((center - minDim).toNat + 1) center
  let start := startRaw + 1
  let endRaw := scanPos img fixedDimension horizontal maxDim maxWhiteRun
    ((maxDim - center).toNat + 1) center
  let e := endRaw - 1
  if e > start then some (start, e) else none

/-- The corner interpolation of `MonochromeRectangleDetector::
findCornerFromCenter` once a step with no valid run is hit: `lr` is the last
valid range and `(x, y)` the current scan position. -/
def cornerFromRange (centerX deltaX centerY deltaY x y : Int)
    (lr : Int × Int) : Pt :=
  if deltaX = 0 then
    let lastY := y - deltaY
    if lr.1 < centerX then
      if lr.2 > centerX then
        ((if deltaY > 0 then lr.1 else lr.2), lastY)
      else (lr.1, lastY)
    else (lr.2, lastY)
  else
    let lastX := x - deltaX
    if lr.1 < centerY then
      if lr.2 > centerY then
        (lastX, (if deltaX < 0 then lr.1 else lr.2))
      else (lastX, lr.1)
    else (lastX, lr.2)

/-- The run search performed at scan position `(x, y)` by one iteration of
`findCornerFromCenter`: a horizontal slice at row `y` when `deltaX == 0`,
otherwise a vertical slice at column `x`. -/
def fcfcRange (img : Img) (deltaX left right top bottom maxWhiteRun x y : Int) :
    Option (Int × Int) :=
  if deltaX = 0 then blackWhiteRange img y maxWhiteRun left right true
  else blackWhiteRange img x maxWhiteRun top bottom false

/-- `MonochromeRectangleDetector::findCornerFromCenter`, fuelled on the scan
loop.  The state is the current scan position `(x, y)` and `lastRange`;
`none` is fuel exhaustion, `some (.error ())` the `NotFoundException`. -/
def findCornerFromCenter (img : Img)
    (centerX deltaX left right centerY deltaY top bottom maxWhiteRun : Int) :
    Nat → Int → Int → Option (Int × Int) → Option (Except Unit Pt)
  | 0, _, _, _ => none
  | fuel + 1, x, y, lastRange =>
    if y < bottom ∧ top ≤ y ∧ x < right ∧ left ≤ x then
      match fcfcRange img deltaX left right top bottom maxWhiteRun x y with
      | none =>
        match lastRange with
        | none => some (.error ())
        | some lr =>
          some (.ok (cornerFromRange centerX deltaX centerY deltaY x y lr))
      | some rg =>
        findCornerFromCenter img centerX deltaX left right centerY deltaY top
          bottom maxWhiteRun fuel (x + deltaX) (y + deltaY) (some rg)
    else some (.error ())

/-- `MonochromeRectangleDetector::detect`: the five ordered corner searches
from the image center; each `?` of the source is an explicit match (`none` is
fuel exhaustion of a search, `Except.error ()` the `NotFoundException`). -/
def MonochromeRectangleDetector.detect (img : Img) (fuel : Nat) :
    Option (Except Unit (List Pt)) :=
  let height := img.h
  let width := img.w
  let halfHeight := height.tdiv 2
  let halfWidth := width.tdiv 2
  let deltaY := max 1 (height.tdiv (MAX_MODULES * 8))
  let deltaX := max 1 (width.tdiv (MAX_MODULES * 8))
  match findCornerFromCenter img halfWidth 0 0 width halfHeight (-deltaY) 0
      height (halfWidth.tdiv 2) fuel halfWidth halfHeight none with
  | none => none
  | some (.error _) => some (.error ())
  | some (.ok pointA1) =>
    let top := pointA1.2 - 1
    match findCornerFromCenter img halfWidth (-deltaX) 0 width halfHeight 0
        top height (halfHeight.tdiv 2) fuel halfWidth halfHeight none with
    | none => none
    | some (.error _) => some (.error ())
    | some (.ok pointB) =>
      let left := pointB.1 - 1
      match findCornerFromCenter img halfWidth deltaX left width halfHeight 0
          top height (halfHeight.tdiv 2) fuel halfWidth halfHeight none with
      | none => none
      | some (.error _) => some (.error ())
      | some (.ok pointC) =>
        let right := pointC.1 + 1
        match findCornerFromCenter img halfWidth 0 left right halfHeight
            deltaY top height (halfWidth.tdiv 2) fuel halfWidth halfHeight
            none with
        | none => none
        | some (.error _) => some (.error ())
        | some (.ok pointD) =>
          let bottom := pointD.2 + 1
          match findCornerFromCenter img halfWidth 0 left right halfHeight
              (-deltaY) top bottom (halfWidth.tdiv 4) fuel halfWidth
              halfHeight none with
          | none => none
          | some (.error _) => some (.error ())
          | some (.ok pointA) => some (.ok [pointA, pointB, pointC, pointD])

/-- If a pass of Phase 1 hits the image edge, the whole Phase-1 loop reports
the `sizeExceeded` failure. -/
theorem phase1_error_of_step (img : Img) (w h : Int) (s : P1State)
    (hstep : (phase1Step img w h s).1 = .error ()) (fuel : Nat) :
    (phase1 img w h (fuel + 1) s).1 = some (.error ()) := by
  simp only [phase1]
  rcases hps : phase1Step img w h s with ⟨e, tr2⟩
  rw [hps] at hstep
  cases e with
  | error u => rfl
  | ok v => exact absurd hstep (by simp)

/-- `detect` runs out of fuel iff Phase 1 does. -/
theorem detect_none_of_phase1_none (d : WhiteRectangleDetector) (fuel : Nat)
    (h : (phase1 d.image d.width d.height fuel d.initState).1 = none) :
    (d.detect fuel).1 = none := by
  unfold WhiteRectangleDetector.detect
  rcases hp1 : phase1 d.image d.width d.height fuel d.initState with ⟨o, tr⟩
  rw [hp1] at h
  simp only at h
  subst h
  rfl

/-- `detect` reports `NotFoundException` whenever Phase 1 does. -/
theorem detect_error_of_phase1 (d : WhiteRectangleDetector) (fuel : Nat)
    (h : (phase1 d.image d.width d.height fuel d.initState).1 =
      some (.error ())) :
    (d.detect fuel).1 = some (.error ()) := by
  unfold WhiteRectangleDetector.detect
  rcases hp1 : phase1 d.image d.width d.height fuel d.initState with ⟨o, tr⟩
  rw [hp1] at h
  simp only at h
  subst h
  rfl

/-- `detect` propagates the Phase-2 result when Phase 1 stabilizes. -/
theorem detect_of_phase1_ok (d : WhiteRectangleDetector) (fuel : Nat)
    (st : P1State)
    (h : (phase1 d.image d.width d.height fuel d.initState).1 =
      some (.ok st)) :
    (d.detect fuel).1 =
      some (phase2 d.image d.width st.left st.right st.up st.down).1 := by
  unfold WhiteRectangleDetector.detect
  rcases hp1 : phase1 d.image d.width d.height fuel d.initState with ⟨o, tr⟩
  rw [hp1] at h
  simp only at h
  subst h
  rfl

/-- Whether a returned quadrilateral `[top, left, right, bottom]` satisfies
the ordering contract of the spec. -/
def quadOrdered (l : List Pt) : Bool :=
  match l with
  | [t, lf, r, b] =>
    decide (t.2 ≤ lf.2) && decide (t.2 ≤ r.2) && decide (lf.2 ≤ b.2) &&
      decide (r.2 ≤ b.2) && decide (lf.1 ≤ r.1)
  | _ => false

/-- CLAIM C3: `centerEdges` nudges each of the four Phase-2 points by exactly
one pixel along both axes, applying one of two mirrored sign tables; the
table is selected by comparing the x-coordinate of the bottom-most scan point
`y` against the image's horizontal midline `width / 2` (for the
integer-valued coordinate this comparison is exactly `2 * y.1 < width`). -/
theorem claim_C3 (w : Int) (y z x t : Pt) :
    (centerEdges w y z x t =
      if 2 * y.1 < w then
        [(t.1 - 1, t.2 + 1), (z.1 + 1, z.2 + 1),
         (x.1 - 1, x.2 - 1), (y.1 + 1, y.2 - 1)]
      else
        [(t.1 + 1, t.2 + 1), (z.1 + 1, z.2 - 1),
         (x.1 - 1, x.2 + 1), (y.1 - 1, y.2 - 1)]) ∧
    ((2 * y.1 < w) ↔ ((y.1 : ℚ) < (w : ℚ) / 2)) ∧
    (∀ p1 p2 p3 p4 : Pt, centerEdges w y z x t = [p1, p2, p3, p4] →
      (p1.1 - t.1).natAbs = 1 ∧ (p1.2 - t.2).natAbs = 1 ∧
      (p2.1 - z.1).natAbs = 1 ∧ (p2.2 - z.2).natAbs = 1 ∧
      (p3.1 - x.1).natAbs = 1 ∧ (p3.2 - x.2).natAbs = 1 ∧
      (p4.1 - y.1).natAbs = 1 ∧ (p4.2 - y.2).natAbs = 1) := by
  refine ⟨by unfold centerEdges CORR; rfl, ?_, ?_⟩
  · rw [lt_div_iff₀ (by norm_num : (0:ℚ) < 2)]
    constructor
    · intro hlt
      have : ((2 * y.1 : Int) : ℚ) < ((w : Int) : ℚ) := by exact_mod_cast hlt
      push_cast at this
      linarith
    · intro hlt
      have : ((2 * y.1 : Int) : ℚ) < ((w : Int) : ℚ) := by push_cast; linarith
      exact_mod_cast this
  · intro p1 p2 p3 p4 hout
    unfold centerEdges CORR at hout
    by_cases hc : 2 * y.1 < w
    · rw [if_pos hc] at hout
      injection hout with h1 hout
      injection hout with h2 hout
      injection hout with h3 hout
      injection hout with h4 _
      subst h1; subst h2; subst h3; subst h4
      refine ⟨?_, ?_, ?_, ?_, ?_, ?_, ?_, ?_⟩ <;> simp
    · rw [if_neg hc] at hout
      injection hout with h1 hout
      injection hout with h2 hout
      injection hout with h3 hout
      injection hout with h4 _
      subst h1; subst h2; subst h3; subst h4
      refine ⟨?_, ?_, ?_, ?_, ?_, ?_, ?_, ?_⟩ <;> simp

/-- CLAIM C7: construction of `WhiteRectangleDetector` fails exactly when the
initial window `[x - initSize/2, x + initSize/2] × [y - initSize/2,
y + initSize/2]` does not fit inside `[0, width) × [0, height)`; and on any
successfully constructed instance a `detect` failure can only come from
Phase 1 reaching the image edge or a Phase-2 diagonal scan finding no
foreground pixel — never from the construction-time bounds condition. -/
theorem claim_C7 :
    (∀ (img : Img) (s x y : Int),
      (WhiteRectangleDetector.new img s x y).isSome ↔
        (0 ≤ x - s.tdiv 2 ∧ x + s.tdiv 2 < img.w ∧
         0 ≤ y - s.tdiv 2 ∧ y + s.tdiv 2 < img.h)) ∧
    (∀ (img : Img) (s x y : Int) (d : WhiteRectangleDetector) (fuel : Nat),
      WhiteRectangleDetector.new img s x y = some d →
      (d.detect fuel).1 = some (.error ()) →
        ((phase1 d.image d.width d.height fuel d.initState).1 =
            some (.error ()) ∨
          ∃ st : P1State,
            (phase1 d.image d.width d.height fuel d.initState).1 =
              some (.ok st) ∧
            (phase2 d.image d.width st.left st.right st.up st.down).1 =
              .error ())) := by
  constructor
  · intro img s x y
    unfold WhiteRectangleDetector.new
    by_cases hc : y - s.tdiv 2 < 0 ∨ x - s.tdiv 2 < 0 ∨
        y + s.tdiv 2 ≥ img.h ∨ x + s.tdiv 2 ≥ img.w
    · rw [if_pos hc]
      simp only [Option.isSome_none, Bool.false_eq_true, false_iff]
      omega
    · rw [if_neg hc]
      simp only [Option.isSome_some, true_iff]
      omega
  · intro img s x y d fuel hnew herr
    cases hp1 : (phase1 d.image d.width d.height fuel d.initState).1 with
    | none =>
      have := detect_none_of_phase1_none d fuel hp1
      rw [this] at herr
      exact absurd herr (by simp)
    | some e =>
      cases e with
      | error u =>
        cases u
        exact Or.inl rfl
      | ok st =>
        refine Or.inr ⟨st, rfl, ?_⟩
        have hd := detect_of_phase1_ok d fuel st hp1
        rw [hd] at herr
        exact Option.some.inj herr

/-- The 20×20 image of the spec's concrete scenario: all background except a
10×10 foreground square occupying rows and columns 5 through 14. -/
def squareImg20 : Img :=
  ⟨20, 20, fun x y =>
    decide (5 ≤ x) && decide (x ≤ 14) && decide (5 ≤ y) && decide (y ≤ 14)⟩

/-- The auto-centered detector on `squareImg20`: `INIT_SIZE = 10`, centered at
`(10, 10)`, so the initial window is `[5, 15] × [5, 15]`. -/
def squareDet20 : WhiteRectangleDetector := ⟨squareImg20, 20, 20, 5, 15, 15, 5⟩

/-- CLAIM C5, counterexample: on the spec's 20×20 scenario the auto-centered
detector is successfully constructed, but `detect` fails with
`NotFoundException` instead of returning four points: the right border starts
at column 15, which is already past the square, never sees a foreground
pixel, and grows to the image edge. -/
theorem claim_C5_counterexample :
    WhiteRectangleDetector.new_from_image squareImg20 = some squareDet20 ∧
    (squareDet20.detect 50).1 = some (.error ()) := by
  constructor
  · rfl
  · rfl

/-- CLAIM C5, amended: on the 20×20 scenario the auto-centered detector fails
with `NotFoundException` for every amount of fuel, because the very first
border-growth pass already drives the right border to the image edge. -/
theorem claim_C5 (fuel : Nat) :
    (squareDet20.detect (fuel + 1)).1 = some (.error ()) := by
  apply detect_error_of_phase1
  apply phase1_error_of_step
  rfl

/-- The 9×5 image whose detection yields an out-of-order quadrilateral:
foreground pixels at `(2, 3)` and `(7, 1)` only. -/
def ordImg9 : Img :=
  ⟨9, 5, fun x y => (x == 2 && y == 3) || (x == 7 && y == 1)⟩

/-- The detector on `ordImg9` with `initSize 2` centered at `(3, 2)`
(initial window `[2, 4] × [1, 3]`). -/
def ordDet9 : WhiteRectangleDetector := ⟨ordImg9, 5, 9, 2, 4, 3, 1⟩

/-- A 7×7 image with a single 8-connected foreground blob
`{(3,1), (4,2), (4,3), (5,2)}` on which the `WhiteRectangleDetector`
succeeds but returns an out-of-order quadrilateral. -/
def c8imgW : Img :=
  ⟨7, 7, fun x y =>
    (x == 3 && y == 1) || (x == 4 && y == 2) || (x == 4 && y == 3) ||
    (x == 5 && y == 2)⟩

/-- The detector on `c8imgW` with `initSize 2` centered at `(4, 2)`
(initial window `[3, 5] × [1, 3]`). -/
def c8detW : WhiteRectangleDetector := ⟨c8imgW, 7, 7, 3, 5, 3, 1⟩

/-- A 5×5 image with a single 8-connected foreground blob
`{(0,3), (1,2), (1,3), (2,1), (2,2)}` on which the
`MonochromeRectangleDetector` succeeds but returns an out-of-order
quadrilateral. -/
def c8imgM : Img :=
  ⟨5, 5, fun x y =>
    (x == 0 && y == 3) || (x == 1 && y == 2) || (x == 1 && y == 3) ||
    (x == 2 && y == 1) || (x == 2 && y == 2)⟩

/-- CLAIM C8, counterexample: both detectors can succeed — on small images
whose foreground is a single 8-connected blob — and return four pairwise
distinct points violating the claimed `[top, left, right, bottom]` ordering.
The `WhiteRectangleDetector` on `c8imgW` returns
`[(4,2), (5,2), (4,3), (4,1)]`, where `left.y = 2 > bottom.y = 1`,
`right.y = 3 > bottom.y = 1` and `left.x = 5 > right.x = 4`; the
`MonochromeRectangleDetector` on `c8imgM` returns
`[(1,2), (1,3), (2,1), (0,3)]`, where `top.y = 2 > right.y = 1`. -/
theorem claim_C8_counterexample :
    (WhiteRectangleDetector.new c8imgW 2 4 2 = some c8detW ∧
      (c8detW.detect 50).1 = some (.ok [(4, 2), (5, 2), (4, 3), (4, 1)]) ∧
      quadOrdered [(4, 2), (5, 2), (4, 3), (4, 1)] = false ∧
      [((4 : Int), (2 : Int)), (5, 2), (4, 3), (4, 1)].Nodup) ∧
    (MonochromeRectangleDetector.detect c8imgM 100 =
        some (.ok [(1, 2), (1, 3), (2, 1), (0, 3)]) ∧
      quadOrdered [(1, 2), (1, 3), (2, 1), (0, 3)] = false ∧
      [((1 : Int), (2 : Int)), (1, 3), (2, 1), (0, 3)].Nodup) := by
  exact ⟨⟨rfl, by decide, by decide, by decide⟩,
    ⟨by decide, by decide, by decide⟩⟩

/-- CLAIM C8, amended: the claimed ordering of the returned quadrilateral
`[top, left, right, bottom]` does hold whenever the four Phase-2 scan points
already satisfy the corresponding inequalities with a two-pixel margin (the
re-centering nudge moves every coordinate by exactly one pixel); without such
a margin the ordering can fail, as the counterexample shows. -/
theorem claim_C8 (w : Int) (y z x t : Pt)
    (h1 : t.2 + 2 ≤ z.2) (h2 : t.2 + 2 ≤ x.2) (h3 : z.2 + 2 ≤ y.2)
    (h4 : x.2 + 2 ≤ y.2) (h5 : z.1 + 2 ≤ x.1) :
    quadOrdered (centerEdges w y z x t) = true := by
  unfold centerEdges CORR
  by_cases hc : 2 * y.1 < w
  · rw [if_pos hc]
    unfold quadOrdered
    simp only [Bool.and_eq_true, decide_eq_true_eq]
    omega
  · rw [if_neg hc]
    unfold quadOrdered
    simp only [Bool.and_eq_true, decide_eq_true_eq]
    omega

/-- Witness for the amended C8 at concrete scan points. -/
theorem claim_C8_witness :
    quadOrdered (centerEdges 10 ((4, 8) : Pt) ((1, 4) : Pt) ((7, 4) : Pt)
      ((4, 1) : Pt)) = true :=
  claim_C8 10 (4, 8) (1, 4) (7, 4) (4, 1) (by decide) (by decide) (by decide)
    (by decide) (by decide)

theorem containsBlackPoint_false_allwhite (img : Img)
    (hw : ∀ a b : Int, img.get a b = false) (a b fixed : Int)
    (horizontal : Bool) :
    (containsBlackPoint img a b fixed horizontal).1 = false := by
  rcases hres : (containsBlackPoint img a b fixed horizontal).1 with _ | _
  · rfl
  · exfalso
    obtain ⟨x, _, _, hx⟩ := (containsBlackPoint_true img a b fixed
      horizontal).1 hres
    unfold pixAt at hx
    rw [hw] at hx
    exact absurd hx (by simp)

/-- Fields and bounds facts of a successfully constructed detector. -/
theorem WhiteRectangleDetector.new_spec (img : Img) (s x y : Int)
    (d : WhiteRectangleDetector)
    (h : WhiteRectangleDetector.new img s x y = some d) :
    d.image = img ∧ d.width = img.w ∧ d.height = img.h ∧
    d.leftInit = x - s.tdiv 2 ∧ d.rightInit = x + s.tdiv 2 ∧
    d.upInit = y - s.tdiv 2 ∧ d.downInit = y + s.tdiv 2 ∧
    0 ≤ d.upInit ∧ 0 ≤ d.leftInit ∧ d.downInit < d.height ∧
    d.rightInit < d.width := by
  unfold WhiteRectangleDetector.new at h
  by_cases hc : y - s.tdiv 2 < 0 ∨ x - s.tdiv 2 < 0 ∨
      y + s.tdiv 2 ≥ img.h ∨ x + s.tdiv 2 ≥ img.w
  · rw [if_pos hc] at h
    exact absurd h (by simp)
  · rw [if_neg hc] at h
    injection h with h
    subst h
    refine ⟨rfl, rfl, rfl, rfl, rfl, rfl, rfl, ?_, ?_, ?_, ?_⟩ <;>
      simp only [] <;> omega

/-- On an all-background image the first border-growth pass drives the right
border to the image edge, so `phase1Step` reports `sizeExceeded`. -/
theorem phase1Step_error_allwhite (img : Img)
    (hw : ∀ a b : Int, img.get a b = false) (w h : Int) (s : P1State)
    (hr : s.right ≤ w) (hf : s.foundR = false) :
    (phase1Step img w h s).1 = .error () := by
  unfold phase1Step
  have hprobe : ∀ pos : Int, (probeV img s.up s.down pos).1 = false := by
    intro pos
    exact containsBlackPoint_false_allwhite img hw _ _ _ _
  have hgrow := growUpAux_allwhite (probeV img s.up s.down) hprobe
    (w - s.right).toNat s.right
  have hbound : (growUp w (probeV img s.up s.down) s.right s.foundR).bound =
      s.right + (w - s.right).toNat := by
    rw [hf]
    exact hgrow.1
  rw [if_pos (by omega : w ≤
    (growUp w (probeV img s.up s.down) s.right s.foundR).bound)]

theorem runWhiteNeg_allwhite (img : Img)
    (hw : ∀ a b : Int, img.get a b = false) (fd : Int) (hz : Bool)
    (minDim : Int) :
    ∀ (fu : Nat) (s : Int), (s - minDim + 1).toNat ≤ fu →
      runWhiteNeg img fd hz minDim fu s < minDim := by
  intro fu
  induction fu with
  | zero => intro s hs; simp only [runWhiteNeg]; omega
  | succ n ih =>
    intro s hs
    simp only [runWhiteNeg]
    by_cases hsm : s < minDim
    · rw [if_pos hsm]; exact hsm
    · rw [if_neg hsm]
      have hp : pixAt img fd hz s = false := by
        unfold pixAt; rw [hw]
      rw [hp]
      simp only [Bool.false_eq_true, if_false]
      exact ih (s - 1) (by omega)

theorem runWhitePos_allwhite (img : Img)
    (hw : ∀ a b : Int, img.get a b = false) (fd : Int) (hz : Bool)
    (maxDim : Int) :
    ∀ (fu : Nat) (s : Int), (maxDim - s + 1).toNat ≤ fu →
      maxDim ≤ runWhitePos img fd hz maxDim fu s := by
  intro fu
  induction fu with
  | zero => intro s hs; simp only [runWhitePos]; omega
  | succ n ih =>
    intro s hs
    simp only [runWhitePos]
    by_cases hsm : maxDim ≤ s
    · rw [if_pos hsm]; exact hsm
    · rw [if_neg hsm]
      have hp : pixAt img fd hz s = false := by
        unfold pixAt; rw [hw]
      rw [hp]
      simp only [Bool.false_eq_true, if_false]
      exact ih (s + 1) (by omega)

/-- On an all-background image `blackWhiteRange` finds no range. -/
theorem blackWhiteRange_allwhite (img : Img)
    (hw : ∀ a b : Int, img.get a b = false)
    (fd mwr minDim maxDim : Int) (hz : Bool) :
    blackWhiteRange img fd mwr minDim maxDim hz = none := by
  unfold blackWhiteRange
  have hp : ∀ s : Int, pixAt img fd hz s = false := by
    intro s; unfold pixAt; rw [hw]
  set c := (minDim + maxDim).tdiv 2 with hc
  have hstart : scanNeg img fd hz minDim mwr ((c - minDim).toNat + 1) c = c := by
    simp only [scanNeg]
    by_cases hcm : c < minDim
    · rw [if_pos hcm]
    · rw [if_neg hcm, hp c]
      simp only [Bool.false_eq_true, if_false]
      have hrw := runWhiteNeg_allwhite img hw fd hz minDim
        ((c - minDim).toNat) (c - 1) (by omega)
      rw [if_pos (Or.inl hrw)]
  have hend : scanPos img fd hz maxDim mwr ((maxDim - c).toNat + 1) c = c := by
    simp only [scanPos]
    by_cases hcm : maxDim ≤ c
    · rw [if_pos hcm]
    · rw [if_neg hcm, hp c]
      simp only [Bool.false_eq_true, if_false]
      have hrw := runWhitePos_allwhite img hw fd hz maxDim
        ((maxDim - c).toNat) (c + 1) (by omega)
      rw [if_pos (Or.inl hrw)]
  dsimp only
  rw [hstart, hend]
  rw [if_neg (by omega : ¬ (c - 1 > c + 1))]

/-- On an all-background image every single-direction corner search fails at
its very first step. -/
theorem findCornerFromCenter_allwhite (img : Img)
    (hw : ∀ a b : Int, img.get a b = false)
    (cX dX l r cY dY t b mwr : Int) (fuel : Nat) (x y : Int) :
    findCornerFromCenter img cX dX l r cY dY t b mwr (fuel + 1) x y none =
      some (.error ()) := by
  simp only [findCornerFromCenter]
  by_cases hin : y < b ∧ t ≤ y ∧ x < r ∧ l ≤ x
  · rw [if_pos hin]
    have hrange : fcfcRange img dX l r t b mwr x y = none := by
      unfold fcfcRange
      by_cases hdx : dX = 0
      · rw [if_pos hdx]; exact blackWhiteRange_allwhite img hw _ _ _ _ _
      · rw [if_neg hdx]; exact blackWhiteRange_allwhite img hw _ _ _ _ _
    rw [hrange]
  · rw [if_neg hin]

/-- CLAIM C6: on an image with no foreground pixels at all,
`MonochromeRectangleDetector::detect` fails with `NotFoundException`, and so
does `WhiteRectangleDetector::detect` on every successfully constructed
instance. -/
theorem claim_C6 (img : Img) (hw : ∀ a b : Int, img.get a b = false) :
    (∀ fuel : Nat,
      MonochromeRectangleDetector.detect img (fuel + 1) =
        some (.error ())) ∧
    (∀ (s x y : Int) (d : WhiteRectangleDetector) (fuel : Nat),
      WhiteRectangleDetector.new img s x y = some d →
        (d.detect (fuel + 1)).1 = some (.error ())) := by
  constructor
  · intro fuel
    unfold MonochromeRectangleDetector.detect
    dsimp only
    rw [findCornerFromCenter_allwhite img hw _ _ _ _ _ _ _ _ _ fuel _ _]
  · intro s x y d fuel hnew
    obtain ⟨him, hwd, hht, hl, hr, hu, hd, h1, h2, h3, h4⟩ :=
      WhiteRectangleDetector.new_spec img s x y d hnew
    apply detect_error_of_phase1
    apply phase1_error_of_step
    apply phase1Step_error_allwhite
    · rw [him]; exact hw
    · show d.rightInit ≤ d.width
      omega
    · rfl

/-- Witness for C3 at a concrete instance (branch `2 * y.1 < width`). -/
theorem claim_C3_witness :
    (centerEdges 10 (4, 8) (1, 4) (7, 4) (4, 1) =
      [(3, 2), (2, 5), (6, 3), (5, 7)]) ∧
    (3 - 4 : Int).natAbs = 1 ∧ (2 - 1 : Int).natAbs = 1 := by
  have h := claim_C3 10 (4, 8) (1, 4) (7, 4) (4, 1)
  have h3 := h.2.2 (3, 2) (2, 5) (6, 3) (5, 7) (by decide)
  exact ⟨by decide, h3.1, h3.2.1⟩

/-- A 5×5 all-background image and the detector built on it with
`initSize 2`, center `(2, 2)`. -/
def whiteImg5 : Img := ⟨5, 5, fun _ _ => false⟩

def whiteDet5 : WhiteRectangleDetector := ⟨whiteImg5, 5, 5, 1, 3, 3, 1⟩

/-- Witness for C6 on the concrete all-background image. -/
theorem claim_C6_witness :
    MonochromeRectangleDetector.detect whiteImg5 1 = some (.error ()) ∧
    (whiteDet5.detect 1).1 = some (.error ()) := by
  have h := claim_C6 whiteImg5 (fun a b => rfl)
  exact ⟨h.1 0, h.2 2 2 2 whiteDet5 0 rfl⟩

/-- Witness for C7 on the concrete all-background detector (whose `detect`
fails): the failure is a Phase-1 `sizeExceeded`, not the construction-time
bounds condition. -/
theorem claim_C7_witness :
    ((WhiteRectangleDetector.new whiteImg5 2 2 2).isSome ↔
      (0 ≤ 2 - (2:Int).tdiv 2 ∧ 2 + (2:Int).tdiv 2 < whiteImg5.w ∧
       0 ≤ 2 - (2:Int).tdiv 2 ∧ 2 + (2:Int).tdiv 2 < whiteImg5.h)) ∧
    ((phase1 whiteDet5.image whiteDet5.width whiteDet5.height 1
        whiteDet5.initState).1 = some (.error ()) ∨
      ∃ st : P1State,
        (phase1 whiteDet5.image whiteDet5.width whiteDet5.height 1
          whiteDet5.initState).1 = some (.ok st) ∧
        (phase2 whiteDet5.image whiteDet5.width st.left st.right st.up
          st.down).1 = .error ()) := by
  refine ⟨claim_C7.1 whiteImg5 2 2 2,
    claim_C7.2 whiteImg5 2 2 2 whiteDet5 1 rfl ?_⟩
  rfl

/-- Inversion of a successful `phase1Step`: names the four growth results,
recovers the in-bounds checks that were passed, the meaning of the returned
`aBlackPointFoundOnBorder` flag and the new state. -/
theorem phase1Step_ok_inv (img : Img) (w h : Int) (s : P1State) (m : Bool)
    (s2 : P1State) (hstep : (phase1Step img w h s).1 = .ok (m, s2)) :
    (growUp w (probeV img s.up s.down) s.right s.foundR).bound < w ∧
    (growUp h (probeH img s.left
      (growUp w (probeV img s.up s.down) s.right s.foundR).bound) s.down
      s.foundB).bound < h ∧
    0 ≤ (growDown (probeV img s.up
      (growUp h (probeH img s.left
        (growUp w (probeV img s.up s.down) s.right s.foundR).bound) s.down
        s.foundB).bound) s.left s.foundL).bound ∧
    0 ≤ (growDown (probeH img
      (growDown (probeV img s.up
        (growUp h (probeH img s.left
          (growUp w (probeV img s.up s.down) s.right s.foundR).bound) s.down
          s.foundB).bound) s.left s.foundL).bound
      (growUp w (probeV img s.up s.down) s.right s.foundR).bound) s.up
      s.foundT).bound ∧
    (let gR := growUp w (probeV img s.up s.down) s.right s.foundR
     let gB := growUp h (probeH img s.left gR.bound) s.down s.foundB
     let gL := growDown (probeV img s.up gB.bound) s.left s.foundL
     let gT := growDown (probeH img gL.bound gR.bound) s.up s.foundT
     m = (gR.moved || gB.moved || gL.moved || gT.moved) ∧
     s2 = ⟨gL.bound, gR.bound, gT.bound, gB.bound,
           gR.found, gB.found, gL.found, gT.found⟩) := by
  unfold phase1Step at hstep
  set gR := growUp w (probeV img s.up s.down) s.right s.foundR with hgR
  by_cases h1 : w ≤ gR.bound
  · rw [if_pos h1] at hstep
    exact absurd hstep (by simp)
  · rw [if_neg h1] at hstep
    set gB := growUp h (probeH img s.left gR.bound) s.down s.foundB with hgB
    by_cases h2 : h ≤ gB.bound
    · rw [if_pos h2] at hstep
      exact absurd hstep (by simp)
    · rw [if_neg h2] at hstep
      set gL := growDown (probeV img s.up gB.bound) s.left s.foundL with hgL
      by_cases h3 : gL.bound < 0
      · rw [if_pos h3] at hstep
        exact absurd hstep (by simp)
      · rw [if_neg h3] at hstep
        set gT := growDown (probeH img gL.bound gR.bound) s.up s.foundT
          with hgT
        by_cases h4 : gT.bound < 0
        · rw [if_pos h4] at hstep
          exact absurd hstep (by simp)
        · rw [if_neg h4] at hstep
          simp only [Except.ok.injEq, Prod.mk.injEq] at hstep
          exact ⟨by omega, by omega, by omega, by omega, hstep.1.symm,
            hstep.2.symm⟩

/-- Inversion of a failed `phase1Step`: some bound reached the image edge, in
the fixed check order of the source. -/
theorem phase1Step_error_iff (img : Img) (w h : Int) (s : P1State) :
    (phase1Step img w h s).1 = .error () ↔
    (let gR := growUp w (probeV img s.up s.down) s.right s.foundR
     let gB := growUp h (probeH img s.left gR.bound) s.down s.foundB
     let gL := growDown (probeV img s.up gB.bound) s.left s.foundL
     let gT := growDown (probeH img gL.bound gR.bound) s.up s.foundT
     w ≤ gR.bound ∨ h ≤ gB.bound ∨ gL.bound < 0 ∨ gT.bound < 0) := by
  unfold phase1Step
  dsimp only
  set gR := growUp w (probeV img s.up s.down) s.right s.foundR with hgR
  by_cases h1 : w ≤ gR.bound
  · rw [if_pos h1]
    simp only []
    exact ⟨fun _ => Or.inl h1, fun _ => trivial⟩
  · rw [if_neg h1]
    set gB := growUp h (probeH img s.left gR.bound) s.down s.foundB with hgB
    by_cases h2 : h ≤ gB.bound
    · rw [if_pos h2]
      simp only []
      exact ⟨fun _ => Or.inr (Or.inl h2), fun _ => trivial⟩
    · rw [if_neg h2]
      set gL := growDown (probeV img s.up gB.bound) s.left s.foundL with hgL
      by_cases h3 : gL.bound < 0
      · rw [if_pos h3]
        simp only []
        exact ⟨fun _ => Or.inr (Or.inr (Or.inl h3)), fun _ => trivial⟩
      · rw [if_neg h3]
        set gT := growDown (probeH img gL.bound gR.bound) s.up s.foundT
          with hgT
        by_cases h4 : gT.bound < 0
        · rw [if_pos h4]
          simp only []
          exact ⟨fun _ => Or.inr (Or.inr (Or.inr h4)), fun _ => trivial⟩
        · rw [if_neg h4]
          simp only []
          constructor
          · intro hc; exact absurd hc (by simp)
          · intro hc
            exfalso
            rcases hc with hc | hc | hc | hc <;> omega

/-- CLAIM C9: throughout `WhiteRectangleDetector::detect` Phase 1 the window
bounds evolve monotonically — in one pass and across the whole loop `left`
and `up` never increase and `right` and `down` never decrease — so the
stabilized window contains the initial window. -/
theorem claim_C9 :
    (∀ (img : Img) (w h : Int) (s : P1State) (m : Bool) (s2 : P1State),
      (phase1Step img w h s).1 = .ok (m, s2) →
        s2.left ≤ s.left ∧ s.right ≤ s2.right ∧ s2.up ≤ s.up ∧
          s.down ≤ s2.down) ∧
    (∀ (img : Img) (w h : Int) (fuel : Nat) (s : P1State) (s2 : P1State),
      (phase1 img w h fuel s).1 = some (.ok s2) →
        s2.left ≤ s.left ∧ s.right ≤ s2.right ∧ s2.up ≤ s.up ∧
          s.down ≤ s2.down) ∧
    (∀ (d : WhiteRectangleDetector) (fuel : Nat) (st : P1State),
      (phase1 d.image d.width d.height fuel d.initState).1 =
          some (.ok st) →
        st.left ≤ d.leftInit ∧ d.rightInit ≤ st.right ∧ st.up ≤ d.upInit ∧
          d.downInit ≤ st.down) := by
  have hstep : ∀ (img : Img) (w h : Int) (s : P1State) (m : Bool)
      (s2 : P1State), (phase1Step img w h s).1 = .ok (m, s2) →
        s2.left ≤ s.left ∧ s.right ≤ s2.right ∧ s2.up ≤ s.up ∧
          s.down ≤ s2.down := by
    intro img w h s m s2 h0
    obtain ⟨_, _, _, _, _, hs2⟩ := phase1Step_ok_inv img w h s m s2 h0
    rw [hs2]
    refine ⟨?_, ?_, ?_, ?_⟩
    · exact growDownAux_bound_le _ _ _ _
    · exact growUpAux_bound_ge _ _ _ _
    · exact growDownAux_bound_le _ _ _ _
    · exact growUpAux_bound_ge _ _ _ _
  have hloop : ∀ (img : Img) (w h : Int) (fuel : Nat) (s : P1State)
      (s2 : P1State), (phase1 img w h fuel s).1 = some (.ok s2) →
        s2.left ≤ s.left ∧ s.right ≤ s2.right ∧ s2.up ≤ s.up ∧
          s.down ≤ s2.down := by
    intro img w h fuel
    induction fuel with
    | zero => intro s s2 hc; exact absurd hc (by simp [phase1])
    | succ n ih =>
      intro s s2 h0
      simp only [phase1] at h0
      rcases hps : phase1Step img w h s with ⟨e, tr⟩
      rw [hps] at h0
      cases e with
      | error u => exact absurd h0 (by simp)
      | ok v =>
        rcases v with ⟨mv, sv⟩
        have hmono := hstep img w h s mv sv (by rw [hps])
        by_cases hm : mv = true
        · rw [hm] at h0
          simp only [if_true] at h0
          have := ih sv s2 h0
          exact ⟨by omega, by omega, by omega, by omega⟩
        · simp only [Bool.not_eq_true] at hm
          rw [hm] at h0
          simp only [Bool.false_eq_true, if_false] at h0
          injection h0 with h0
          injection h0 with h0
          rw [← h0]
          exact hmono
  exact ⟨hstep, hloop, fun d fuel st h0 => hloop d.image d.width d.height
    fuel d.initState st h0⟩

/-- Witness for C9: the concrete detection on `ordImg9` stabilizes at the
window `[1, 8] × [0, 4]`, which contains the initial window
`[2, 4] × [1, 3]`. -/
theorem claim_C9_witness :
    (⟨1, 8, 0, 4, true, true, true, true⟩ : P1State).left ≤ ordDet9.leftInit ∧
    ordDet9.rightInit ≤ (⟨1, 8, 0, 4, true, true, true, true⟩ : P1State).right ∧
    (⟨1, 8, 0, 4, true, true, true, true⟩ : P1State).up ≤ ordDet9.upInit ∧
    ordDet9.downInit ≤ (⟨1, 8, 0, 4, true, true, true, true⟩ : P1State).down :=
  claim_C9.2.2 ordDet9 50 ⟨1, 8, 0, 4, true, true, true, true⟩ (by decide)

theorem growUp_moved_bound (lim : Int) (probe : Int → Bool × List Pt)
    (b : Int) (f : Bool) (h : (growUp lim probe b f).moved = true) :
    b + 1 ≤ (growUp lim probe b f).bound :=
  growUpAux_moved_bound probe _ b f h

theorem growDown_moved_bound (probe : Int → Bool × List Pt) (b : Int)
    (f : Bool) (h : (growDown probe b f).moved = true) :
    (growDown probe b f).bound ≤ b - 1 :=
  growDownAux_moved_bound probe _ b f h

/-- CLAIM C1: in Phase 1 of `WhiteRectangleDetector::detect`,
(a)/(b) each of the four window bounds stops growing (inside the image) only
after that border has seen at least one foreground pixel on some prior step
(`found = true`) and the current border scan is entirely background;
(c) the pass flag `aBlackPointFoundOnBorder` is set exactly when some bound
moved during the pass, and (d) the four-border pass repeats exactly while
that flag is set; (e) a pass fails exactly when a bound reaches the image
edge (in the fixed order right/bottom/left/top of the source), and (f) such
a failure makes `detect` fail with `NotFoundException`. -/
theorem claim_C1 :
    (∀ (lim : Int) (probe : Int → Bool × List Pt) (b : Int) (f : Bool),
      (growUp lim probe b f).bound < lim →
        (probe (growUp lim probe b f).bound).1 = false ∧
          (growUp lim probe b f).found = true) ∧
    (∀ (probe : Int → Bool × List Pt) (b : Int) (f : Bool),
      0 ≤ (growDown probe b f).bound →
        (probe (growDown probe b f).bound).1 = false ∧
          (growDown probe b f).found = true) ∧
    (∀ (img : Img) (w h : Int) (s : P1State) (m : Bool) (s2 : P1State),
      (phase1Step img w h s).1 = .ok (m, s2) →
        (m = true ↔ ¬(s2.left = s.left ∧ s2.right = s.right ∧
          s2.up = s.up ∧ s2.down = s.down))) ∧
    (∀ (img : Img) (w h : Int) (fuel : Nat) (s : P1State) (m : Bool)
        (s2 : P1State),
      (phase1Step img w h s).1 = .ok (m, s2) →
        (phase1 img w h (fuel + 1) s).1 =
          if m then (phase1 img w h fuel s2).1 else some (.ok s2)) ∧
    (∀ (img : Img) (w h : Int) (s : P1State),
      (phase1Step img w h s).1 = .error () ↔
        (let gR := growUp w (probeV img s.up s.down) s.right s.foundR
         let gB := growUp h (probeH img s.left gR.bound) s.down s.foundB
         let gL := growDown (probeV img s.up gB.bound) s.left s.foundL
         let gT := growDown (probeH img gL.bound gR.bound) s.up s.foundT
         w ≤ gR.bound ∨ h ≤ gB.bound ∨ gL.bound < 0 ∨ gT.bound < 0)) ∧
    (∀ (d : WhiteRectangleDetector) (fuel : Nat),
      (phase1 d.image d.width d.height fuel d.initState).1 =
          some (.error ()) →
        (d.detect fuel).1 = some (.error ())) := by
  refine ⟨?_, ?_, ?_, ?_, phase1Step_error_iff, detect_error_of_phase1⟩
  · intro lim probe b f hlt
    exact growUpAux_stop probe lim _ b f rfl hlt
  · intro probe b f hge
    exact growDownAux_stop probe _ b f rfl hge
  · intro img w h s m s2 hstep
    obtain ⟨hb1, hb2, hb3, hb4, hrest⟩ := phase1Step_ok_inv img w h s m s2
      hstep
    obtain ⟨hm, hs2⟩ := hrest
    constructor
    · intro hmt hconj
      rw [hm] at hmt
      rw [hs2] at hconj
      obtain ⟨hc1, hc2, hc3, hc4⟩ := hconj
      dsimp only at hc1 hc2 hc3 hc4
      simp only [Bool.or_eq_true] at hmt
      rcases hmt with ((hmv | hmv) | hmv) | hmv
      · have hb := growUp_moved_bound _ _ _ _ hmv
        omega
      · have hb := growUp_moved_bound _ _ _ _ hmv
        omega
      · have hb := growDown_moved_bound _ _ _ hmv
        omega
      · have hb := growDown_moved_bound _ _ _ hmv
        omega
    · intro hne
      by_contra hmf
      simp only [Bool.not_eq_true] at hmf
      rw [hmf] at hm
      have hall := hm.symm
      simp only [Bool.or_eq_false_iff] at hall
      obtain ⟨⟨⟨hmR, hmB⟩, hmL⟩, hmT⟩ := hall
      have heR := growUpAux_nomove (probeV img s.up s.down) w _ s.right
        s.foundR rfl hb1 hmR
      have heB := growUpAux_nomove _ h _ s.down s.foundB rfl hb2 hmB
      have heL := growDownAux_nomove _ _ s.left s.foundL rfl hb3 hmL
      have heT := growDownAux_nomove _ _ s.up s.foundT rfl hb4 hmT
      apply hne
      rw [hs2]
      exact ⟨heL.1, heR.1, heT.1, heB.1⟩
  · intro img w h fuel s m s2 hstep
    simp only [phase1]
    rcases hps : phase1Step img w h s with ⟨e, tr⟩
    rw [hps] at hstep
    simp only [] at hstep
    subst hstep
    rcases hm : m with _ | _
    · simp only [Bool.false_eq_true, if_false]
    · simp only [if_true]

/-- The state after the first border-growth pass on `ordImg9`. -/
def ordStep1 : P1State := ⟨1, 8, 0, 4, true, true, true, true⟩

/-- Witness for C1 at concrete inputs from the `ordImg9` detection. -/
theorem claim_C1_witness :
    ((probeV ordImg9 0 4 (growUp 9 (probeV ordImg9 0 4) 4 false).bound).1 =
        false ∧
      (growUp 9 (probeV ordImg9 0 4) 4 false).found = true) ∧
    ((probeV ordImg9 0 4 (growDown (probeV ordImg9 0 4) 2 false).bound).1 =
        false ∧
      (growDown (probeV ordImg9 0 4) 2 false).found = true) ∧
    (true = true ↔ ¬(ordStep1.left = ordDet9.initState.left ∧
      ordStep1.right = ordDet9.initState.right ∧
      ordStep1.up = ordDet9.initState.up ∧
      ordStep1.down = ordDet9.initState.down)) ∧
    ((phase1 ordImg9 9 5 2 ordDet9.initState).1 =
      if true then (phase1 ordImg9 9 5 1 ordStep1).1
      else some (.ok ordStep1)) ∧
    ((squareDet20.detect 1).1 = some (.error ())) := by
  refine ⟨claim_C1.1 9 (probeV ordImg9 0 4) 4 false (by decide),
    claim_C1.2.1 (probeV ordImg9 0 4) 2 false (by decide),
    claim_C1.2.2.1 ordImg9 9 5 ordDet9.initState true ordStep1 (by rfl),
    claim_C1.2.2.2.1 ordImg9 9 5 1 ordDet9.initState true ordStep1 (by rfl),
    claim_C1.2.2.2.2.2 squareDet20 1 (by rfl)⟩

theorem distRound_nonneg (dx dy : Int) : 0 ≤ distRound dx dy := by
  unfold distRound
  positivity

/-- The rasterization loop returns the first foreground pixel among the
probed step points. -/
theorem gbposAux_some (img : Img) (aX aY bX bY dist : Int) :
    ∀ (fuel : Nat) (k0 : Int) (p : Pt),
      (gbposAux img aX aY bX bY dist fuel k0).1 = some p →
        img.get p.1 p.2 = true ∧
        ∃ k : Int, k0 ≤ k ∧ k < k0 + fuel ∧
          p = segPoint aX aY bX bY dist k ∧
          ∀ k' : Int, k0 ≤ k' → k' < k →
            img.get (segPoint aX aY bX bY dist k').1
              (segPoint aX aY bX bY dist k').2 = false := by
  intro fuel
  induction fuel with
  | zero => intro k0 p h; simp [gbposAux] at h
  | succ n ih =>
    intro k0 p h
    simp only [gbposAux] at h
    by_cases hg : img.get (segPoint aX aY bX bY dist k0).1
        (segPoint aX aY bX bY dist k0).2
    · rw [if_pos hg] at h
      simp only [Option.some.injEq] at h
      subst h
      exact ⟨hg, k0, le_refl _, by omega, rfl, fun k' h1 h2 => by omega⟩
    · rw [if_neg hg] at h
      obtain ⟨hp, k, h1, h2, h3, h4⟩ := ih (k0 + 1) p h
      refine ⟨hp, k, by omega, by omega, h3, ?_⟩
      intro k' hk1 hk2
      rcases eq_or_lt_of_le hk1 with rfl | hlt
      · simpa using hg
      · exact h4 k' (by omega) hk2

/-- The rasterization loop misses iff every probed step point is
background. -/
theorem gbposAux_none_iff (img : Img) (aX aY bX bY dist : Int) :
    ∀ (fuel : Nat) (k0 : Int),
      (gbposAux img aX aY bX bY dist fuel k0).1 = none ↔
        ∀ k : Int, k0 ≤ k → k < k0 + fuel →
          img.get (segPoint aX aY bX bY dist k).1
            (segPoint aX aY bX bY dist k).2 = false := by
  intro fuel
  induction fuel with
  | zero =>
    intro k0
    simp only [gbposAux]
    exact ⟨fun _ k h1 h2 => by omega, fun _ => trivial⟩
  | succ n ih =>
    intro k0
    simp only [gbposAux]
    by_cases hg : img.get (segPoint aX aY bX bY dist k0).1
        (segPoint aX aY bX bY dist k0).2
    · rw [if_pos hg]
      simp only [Option.some_ne_none, false_iff]
      intro hall
      have := hall k0 (le_refl _) (by omega)
      rw [this] at hg
      exact absurd hg (by simp)
    · rw [if_neg hg]
      rw [ih (k0 + 1)]
      constructor
      · intro hall k h1 h2
        rcases eq_or_lt_of_le h1 with rfl | hlt
        · simpa using hg
        · exact hall k (by omega) (by omega)
      · intro hall k h1 h2
        exact hall k (by omega) (by omega)

/-- Every pixel probed by the rasterization loop is one of the step
points. -/
theorem gbposAux_probes (img : Img) (aX aY bX bY dist : Int) :
    ∀ (fuel : Nat) (k0 : Int) (p : Pt),
      p ∈ (gbposAux img aX aY bX bY dist fuel k0).2 →
        ∃ k : Int, k0 ≤ k ∧ k < k0 + fuel ∧
          p = segPoint aX aY bX bY dist k := by
  intro fuel
  induction fuel with
  | zero => intro k0 p h; simp [gbposAux] at h
  | succ n ih =>
    intro k0 p h
    simp only [gbposAux] at h
    by_cases hg : img.get (segPoint aX aY bX bY dist k0).1
        (segPoint aX aY bX bY dist k0).2
    · rw [if_pos hg] at h
      simp only [List.mem_singleton] at h
      exact ⟨k0, le_refl _, by omega, h⟩
    · rw [if_neg hg] at h
      simp only [List.mem_cons] at h
      rcases h with rfl | h
      · exact ⟨k0, le_refl _, by omega, rfl⟩
      · obtain ⟨k, h1, h2, h3⟩ := ih (k0 + 1) p h
        exact ⟨k, by omega, by omega, h3⟩

/-- `getBlackPointOnSegment` returns the first foreground pixel along the
rasterized segment: the step count is the rounded Euclidean distance of the
endpoints, and every earlier step point is background. -/
theorem getBlackPointOnSegment_some (img : Img) (aX aY bX bY : Int) (p : Pt)
    (h : (getBlackPointOnSegment img aX aY bX bY).1 = some p) :
    img.get p.1 p.2 = true ∧
    ∃ k : Int, 0 ≤ k ∧ k < distRound (bX - aX) (bY - aY) ∧
      p = segPoint aX aY bX bY (distRound (bX - aX) (bY - aY)) k ∧
      ∀ k' : Int, 0 ≤ k' → k' < k →
        img.get (segPoint aX aY bX bY (distRound (bX - aX) (bY - aY)) k').1
          (segPoint aX aY bX bY (distRound (bX - aX) (bY - aY)) k').2 =
          false := by
  unfold getBlackPointOnSegment at h
  obtain ⟨hp, k, h1, h2, h3, h4⟩ := gbposAux_some img aX aY bX bY _ _ 0 p h
  refine ⟨hp, k, h1, ?_, h3, h4⟩
  have hd := distRound_nonneg (bX - aX) (bY - aY)
  omega

/-- `getBlackPointOnSegment` misses iff every step point of the segment is
background. -/
theorem getBlackPointOnSegment_none_iff (img : Img) (aX aY bX bY : Int) :
    (getBlackPointOnSegment img aX aY bX bY).1 = none ↔
      ∀ k : Int, 0 ≤ k → k < distRound (bX - aX) (bY - aY) →
        img.get (segPoint aX aY bX bY (distRound (bX - aX) (bY - aY)) k).1
          (segPoint aX aY bX bY (distRound (bX - aX) (bY - aY)) k).2 =
          false := by
  unfold getBlackPointOnSegment
  rw [gbposAux_none_iff]
  have hd := distRound_nonneg (bX - aX) (bY - aY)
  constructor
  · intro hall k h1 h2
    exact hall k h1 (by omega)
  · intro hall k h1 h2
    exact hall k h1 (by omega)

/-- The corner-scan loop returns the result of the first offset whose
segment scan hits, all smaller offsets having missed. -/
theorem scanCornerAux_some (seg : Int → Option Pt × List Pt) :
    ∀ (fuel : Nat) (i0 : Int) (p : Pt),
      (scanCornerAux seg fuel i0).1 = some p →
        ∃ i : Int, i0 ≤ i ∧ i < i0 + fuel ∧ (seg i).1 = some p ∧
          ∀ i' : Int, i0 ≤ i' → i' < i → (seg i').1 = none := by
  intro fuel
  induction fuel with
  | zero => intro i0 p h; simp [scanCornerAux] at h
  | succ n ih =>
    intro i0 p h
    simp only [scanCornerAux] at h
    rcases hseg : seg i0 with ⟨o, tr⟩
    rw [hseg] at h
    cases o with
    | some q =>
      simp only [Option.some.injEq] at h
      subst h
      refine ⟨i0, le_refl _, by omega, by rw [hseg], fun i' h1 h2 => by omega⟩
    | none =>
      simp only [] at h
      obtain ⟨i, h1, h2, h3, h4⟩ := ih (i0 + 1) p h
      refine ⟨i, by omega, by omega, h3, ?_⟩
      intro i' hi1 hi2
      rcases eq_or_lt_of_le hi1 with rfl | hlt
      · rw [hseg]
      · exact h4 i' (by omega) hi2

/-- Probes of the corner-scan loop: each probed pixel comes from the segment
of some offset `i`, every smaller offset having missed. -/
theorem scanCornerAux_probes (seg : Int → Option Pt × List Pt) :
    ∀ (fuel : Nat) (i0 : Int) (p : Pt),
      p ∈ (scanCornerAux seg fuel i0).2 →
        ∃ i : Int, i0 ≤ i ∧ i < i0 + fuel ∧ p ∈ (seg i).2 ∧
          ∀ i' : Int, i0 ≤ i' → i' < i → (seg i').1 = none := by
  intro fuel
  induction fuel with
  | zero => intro i0 p h; simp [scanCornerAux] at h
  | succ n ih =>
    intro i0 p h
    simp only [scanCornerAux] at h
    rcases hseg : seg i0 with ⟨o, tr⟩
    rw [hseg] at h
    cases o with
    | some q =>
      simp only [] at h
      refine ⟨i0, le_refl _, by omega, by rw [hseg]; exact h,
        fun i' h1 h2 => by omega⟩
    | none =>
      simp only [List.mem_append] at h
      rcases h with h | h
      · refine ⟨i0, le_refl _, by omega, by rw [hseg]; exact h,
          fun i' h1 h2 => by omega⟩
      · obtain ⟨i, h1, h2, h3, h4⟩ := ih (i0 + 1) p h
        refine ⟨i, by omega, by omega, h3, ?_⟩
        intro i' hi1 hi2
        rcases eq_or_lt_of_le hi1 with rfl | hlt
        · rw [hseg]
        · exact h4 i' (by omega) hi2

/-- Phase 2 fails with `NotFoundException` exactly when one of the four
corner scans finds no foreground pixel. -/
theorem phase2_error_iff (img : Img) (w left right up down : Int) :
    (phase2 img w left right up down).1 = .error () ↔
      ((zScan img left right up down).1 = none ∨
       (tScan img left right up down).1 = none ∨
       (xScan img left right up down).1 = none ∨
       (yScan img left right up down).1 = none) := by
  unfold phase2
  rcases hz : (zScan img left right up down).1 with _ | z
  · simp [hz]
  · rcases ht : (tScan img left right up down).1 with _ | t
    · simp [hz, ht]
    · rcases hx : (xScan img left right up down).1 with _ | x
      · simp [hz, ht, hx]
      · rcases hy : (yScan img left right up down).1 with _ | y
        · simp [hz, ht, hx, hy]
        · simp [hz, ht, hx, hy]

/-- CLAIM C2: each Phase-2 diagonal corner scan sweeps offsets
`i = 1, …, (right-left)-1` and returns the first foreground pixel hit, where
a segment is rasterized with a step count equal to the rounded Euclidean
distance of its endpoints and each intermediate coordinate rounded to the
nearest pixel (`segPoint`/`distRound`); and `detect` fails with
`NotFoundException` when any of the four scans finds no foreground pixel. -/
theorem claim_C2 :
    (∀ (img : Img) (aX aY bX bY : Int) (p : Pt),
      (getBlackPointOnSegment img aX aY bX bY).1 = some p →
        img.get p.1 p.2 = true ∧
        ∃ k : Int, 0 ≤ k ∧ k < distRound (bX - aX) (bY - aY) ∧
          p = segPoint aX aY bX bY (distRound (bX - aX) (bY - aY)) k ∧
          ∀ k' : Int, 0 ≤ k' → k' < k →
            img.get
              (segPoint aX aY bX bY (distRound (bX - aX) (bY - aY)) k').1
              (segPoint aX aY bX bY (distRound (bX - aX) (bY - aY)) k').2 =
              false) ∧
    (∀ (seg : Int → Option Pt × List Pt) (maxSize : Int) (p : Pt),
      (scanCorner seg maxSize).1 = some p →
        ∃ i : Int, 1 ≤ i ∧ i < maxSize ∧ (seg i).1 = some p ∧
          ∀ i' : Int, 1 ≤ i' → i' < i → (seg i').1 = none) ∧
    (∀ (img : Img) (w left right up down : Int),
      (phase2 img w left right up down).1 = .error () ↔
        ((zScan img left right up down).1 = none ∨
         (tScan img left right up down).1 = none ∨
         (xScan img left right up down).1 = none ∨
         (yScan img left right up down).1 = none)) ∧
    (∀ (d : WhiteRectangleDetector) (fuel : Nat) (st : P1State),
      (phase1 d.image d.width d.height fuel d.initState).1 =
          some (.ok st) →
      (phase2 d.image d.width st.left st.right st.up st.down).1 =
          .error () →
        (d.detect fuel).1 = some (.error ())) := by
  refine ⟨getBlackPointOnSegment_some, ?_, phase2_error_iff, ?_⟩
  · intro seg maxSize p h
    unfold scanCorner at h
    by_cases hms : 2 ≤ maxSize
    · obtain ⟨i, h1, h2, h3, h4⟩ := scanCornerAux_some seg _ 1 p h
      refine ⟨i, h1, by omega, h3, h4⟩
    · have hz : (maxSize - 1).toNat = 0 := by omega
      rw [hz] at h
      simp [scanCornerAux] at h
  · intro d fuel st h1 h2
    have := detect_of_phase1_ok d fuel st h1
    rw [this, h2]

/-- A 9×14 image on which Phase 1 stabilizes but the `y` corner scan finds
no foreground pixel: a row of three pixels at `y = 2` plus a tall bar in
column 3, leaving the bottom-right region of the stabilized window empty. -/
def missImg9 : Img :=
  ⟨9, 14, fun x y =>
    (y == 2 && (x == 3 || x == 4 || x == 5)) ||
    (x == 3 && decide (2 ≤ y) && decide (y ≤ 11))⟩

/-- The detector on `missImg9` with `initSize 2` centered at `(4, 3)`. -/
def missDet9 : WhiteRectangleDetector := ⟨missImg9, 14, 9, 3, 5, 4, 2⟩

/-- Witness for C2: a concrete first-hit segment scan, a concrete corner
scan, and the concrete detection on `missImg9` failing because its `y` scan
misses. -/
theorem claim_C2_witness :
    (ordImg9.get 2 3 = true) ∧
    ((phase2 missImg9 9 2 6 1 12).1 = .error ()) ∧
    ((missDet9.detect 2).1 = some (.error ())) ∧
    (∃ i : Int, 1 ≤ i ∧ i < 7 ∧
      (getBlackPointOnSegment ordImg9 1 (4 - i) (1 + i) 4).1 =
        some (2, 3) ∧
      ∀ i' : Int, 1 ≤ i' → i' < i →
        (getBlackPointOnSegment ordImg9 1 (4 - i') (1 + i') 4).1 = none) := by
  have w3 : (phase2 missImg9 9 2 6 1 12).1 = .error () :=
    (claim_C2.2.2.1 missImg9 9 2 6 1 12).mpr
      (Or.inr (Or.inr (Or.inr rfl)))
  refine ⟨(claim_C2.1 ordImg9 1 2 3 4 (2, 3) rfl).1, w3,
    claim_C2.2.2.2 missDet9 2 ⟨2, 6, 1, 12, true, true, true, true⟩ rfl w3,
    ?_⟩
  exact claim_C2.2.1
    (fun i => getBlackPointOnSegment ordImg9 1 (4 - i) (1 + i) 4) 7 (2, 3)
    rfl

/-- An 8×8 all-foreground image. -/
def blackImg8 : Img := ⟨8, 8, fun _ _ => true⟩

/-- The 12×12 image with a 6×6 foreground square on rows/columns 3..8. -/
def imgSq12 : Img :=
  ⟨12, 12, fun x y =>
    decide (3 ≤ x) && decide (x ≤ 8) && decide (3 ≤ y) && decide (y ≤ 8)⟩

/-- CLAIM C4, counterexample: on the all-foreground 8×8 image the upward
corner search finds a valid run at every single step (the very first
`blackWhiteRange` already yields `(0, 7)`), yet it fails with
`NotFoundException` because the scan exits its bounds without ever hitting a
step with no valid run — so "fails exactly when no valid run was found" and
"whenever at least one valid run was found it returns a corner" are both
false. -/
theorem claim_C4_counterexample :
    findCornerFromCenter blackImg8 4 0 0 8 4 (-1) 0 8 2 100 4 4 none =
      some (.error ()) ∧
    blackWhiteRange blackImg8 4 2 0 8 true = some (0, 7) ∧
    MonochromeRectangleDetector.detect blackImg8 100 = some (.error ()) := by
  refine ⟨by decide, by decide, by decide⟩

/-- CLAIM C4, amended, part (i): whenever `findCornerFromCenter` returns a
corner, that corner is interpolated (by `cornerFromRange`, which implements
the straddle/away-from-center edge choice of the source) from the last valid
run, found at the step preceding the first in-bounds step with no valid
run. -/
theorem findCornerFromCenter_ok_inv (img : Img)
    (cX dX l r cY dY t b mwr : Int) :
    ∀ (fuel : Nat) (x y : Int) (lastRg : Option (Int × Int)) (p : Pt),
      findCornerFromCenter img cX dX l r cY dY t b mwr fuel x y lastRg =
          some (.ok p) →
        ∃ (x' y' : Int) (rg : Int × Int),
          (y' < b ∧ t ≤ y' ∧ x' < r ∧ l ≤ x') ∧
          fcfcRange img dX l r t b mwr x' y' = none ∧
          ((x' = x ∧ y' = y ∧ lastRg = some rg) ∨
            fcfcRange img dX l r t b mwr (x' - dX) (y' - dY) = some rg) ∧
          p = cornerFromRange cX dX cY dY x' y' rg := by
  intro fuel
  induction fuel with
  | zero => intro x y lastRg p h; simp [findCornerFromCenter] at h
  | succ n ih =>
    intro x y lastRg p h
    simp only [findCornerFromCenter] at h
    by_cases hin : y < b ∧ t ≤ y ∧ x < r ∧ l ≤ x
    · rw [if_pos hin] at h
      rcases hrange : fcfcRange img dX l r t b mwr x y with _ | rg
      · rw [hrange] at h
        rcases hlast : lastRg with _ | lr
        · rw [hlast] at h
          exact absurd h (by simp)
        · rw [hlast] at h
          simp only [Option.some.injEq, Except.ok.injEq] at h
          exact ⟨x, y, lr, hin, hrange, Or.inl ⟨rfl, rfl, rfl⟩, h.symm⟩
      · rw [hrange] at h
        obtain ⟨x', y', rg', hin', hnone, hdisj, hp⟩ := ih _ _ _ p h
        refine ⟨x', y', rg', hin', hnone, ?_, hp⟩
        rcases hdisj with ⟨hx, hy, hl⟩ | hprev
        · right
          simp only [Option.some.injEq] at hl
          rw [hx, hy]
          simp only [add_sub_cancel_right]
          rw [hrange, hl]
        · right; exact hprev
    · rw [if_neg hin] at h
      exact absurd h (by simp)

/-- CLAIM C4, amended, part (ii): when every in-bounds step yields a valid
run, the search can only fail (the scan exits its bounds without the
"no valid run" step that produces a corner). -/
theorem findCornerFromCenter_allruns (img : Img)
    (cX dX l r cY dY t b mwr : Int)
    (hall : ∀ x y : Int, (y < b ∧ t ≤ y ∧ x < r ∧ l ≤ x) →
      fcfcRange img dX l r t b mwr x y ≠ none) :
    ∀ (fuel : Nat) (x y : Int) (lastRg : Option (Int × Int))
        (res : Except Unit Pt),
      findCornerFromCenter img cX dX l r cY dY t b mwr fuel x y lastRg =
          some res →
        res = .error () := by
  intro fuel
  induction fuel with
  | zero => intro x y lastRg res h; simp [findCornerFromCenter] at h
  | succ n ih =>
    intro x y lastRg res h
    simp only [findCornerFromCenter] at h
    by_cases hin : y < b ∧ t ≤ y ∧ x < r ∧ l ≤ x
    · rw [if_pos hin] at h
      rcases hrange : fcfcRange img dX l r t b mwr x y with _ | rg
      · exact absurd hrange (hall x y hin)
      · rw [hrange] at h
        exact ih _ _ _ res h
    · rw [if_neg hin] at h
      simp only [Option.some.injEq] at h
      exact h.symm

/-- CLAIM C4, amended, part (iii): when no step ever yields a valid run, the
search fails at its very first step. -/
theorem findCornerFromCenter_noruns (img : Img)
    (cX dX l r cY dY t b mwr : Int)
    (hnone : ∀ x y : Int, fcfcRange img dX l r t b mwr x y = none) :
    ∀ (fuel : Nat) (x y : Int),
      findCornerFromCenter img cX dX l r cY dY t b mwr (fuel + 1) x y none =
        some (.error ()) := by
  intro fuel x y
  simp only [findCornerFromCenter]
  by_cases hin : y < b ∧ t ≤ y ∧ x < r ∧ l ≤ x
  · rw [if_pos hin, hnone x y]
  · rw [if_neg hin]

/-- CLAIM C4, amended: `findCornerFromCenter` returns a corner exactly by
interpolating the last valid run at the first in-bounds step with no valid
run; it fails with `NotFoundException` both when no valid run was ever found
and when valid runs persist until the scan exits its search bounds. -/
theorem claim_C4 :
    (∀ (img : Img) (cX dX l r cY dY t b mwr : Int) (fuel : Nat) (x y : Int)
        (lastRg : Option (Int × Int)) (p : Pt),
      findCornerFromCenter img cX dX l r cY dY t b mwr fuel x y lastRg =
          some (.ok p) →
        ∃ (x' y' : Int) (rg : Int × Int),
          (y' < b ∧ t ≤ y' ∧ x' < r ∧ l ≤ x') ∧
          fcfcRange img dX l r t b mwr x' y' = none ∧
          ((x' = x ∧ y' = y ∧ lastRg = some rg) ∨
            fcfcRange img dX l r t b mwr (x' - dX) (y' - dY) = some rg) ∧
          p = cornerFromRange cX dX cY dY x' y' rg) ∧
    (∀ (img : Img) (cX dX l r cY dY t b mwr : Int),
      (∀ x y : Int, (y < b ∧ t ≤ y ∧ x < r ∧ l ≤ x) →
        fcfcRange img dX l r t b mwr x y ≠ none) →
      ∀ (fuel : Nat) (x y : Int) (lastRg : Option (Int × Int))
          (res : Except Unit Pt),
        findCornerFromCenter img cX dX l r cY dY t b mwr fuel x y lastRg =
            some res →
          res = .error ()) ∧
    (∀ (img : Img) (cX dX l r cY dY t b mwr : Int),
      (∀ x y : Int, fcfcRange img dX l r t b mwr x y = none) →
      ∀ (fuel : Nat) (x y : Int),
        findCornerFromCenter img cX dX l r cY dY t b mwr (fuel + 1) x y
          none = some (.error ())) :=
  ⟨fun img cX dX l r cY dY t b mwr fuel =>
      findCornerFromCenter_ok_inv img cX dX l r cY dY t b mwr fuel,
    fun img cX dX l r cY dY t b mwr =>
      findCornerFromCenter_allruns img cX dX l r cY dY t b mwr,
    fun img cX dX l r cY dY t b mwr =>
      findCornerFromCenter_noruns img cX dX l r cY dY t b mwr⟩

/-- Witness for the amended C4: the concrete upward search on `imgSq12`
returns the corner `(8, 3)` (so part (i) yields its interpolation data), and
on the all-foreground image part (ii) reproduces the counterexample
failure. -/
theorem claim_C4_witness :
    (∃ (x' y' : Int) (rg : Int × Int),
      (y' < 12 ∧ 0 ≤ y' ∧ x' < 12 ∧ 0 ≤ x') ∧
      fcfcRange imgSq12 0 0 12 0 12 3 x' y' = none ∧
      ((x' = 6 ∧ y' = 6 ∧ (none : Option (Int × Int)) = some rg) ∨
        fcfcRange imgSq12 0 0 12 0 12 3 (x' - 0) (y' - (-1)) = some rg) ∧
      ((8, 3) : Pt) = cornerFromRange 6 0 6 (-1) x' y' rg) ∧
    ((.error () : Except Unit Pt) = .error ()) := by
  constructor
  · exact claim_C4.1 imgSq12 6 0 0 12 6 (-1) 0 12 3 100 6 6 none (8, 3)
      (by decide)
  · exact claim_C4.2.1 blackImg8 4 0 0 8 4 (-1) 0 8 2
      (fun x y hin => by
        have hx : fcfcRange blackImg8 0 0 8 0 8 2 x y =
            blackWhiteRange blackImg8 y 2 0 8 true := rfl
        rw [hx]
        have h0 : 0 ≤ y := hin.2.1
        have h8 : y < 8 := hin.1
        interval_cases y <;> decide)
      100 4 4 none (.error ()) (by decide)

/-- Pixels probed by a vertical border scan of column `fixed`. -/
theorem probeV_probes (img : Img) (a b fixed : Int) (p : Pt)
    (h : p ∈ (probeV img a b fixed).2) :
    ∃ yy : Int, a ≤ yy ∧ yy ≤ b ∧ p = (fixed, yy) := by
  obtain ⟨x, h1, h2, h3⟩ := containsBlackPoint_probes img a b fixed false p h
  exact ⟨x, h1, h2, h3⟩

/-- Pixels probed by a horizontal border scan of row `fixed`. -/
theorem probeH_probes (img : Img) (a b fixed : Int) (p : Pt)
    (h : p ∈ (probeH img a b fixed).2) :
    ∃ xx : Int, a ≤ xx ∧ xx ≤ b ∧ p = (xx, fixed) := by
  obtain ⟨x, h1, h2, h3⟩ := containsBlackPoint_probes img a b fixed true p h
  exact ⟨x, h1, h2, h3⟩

/-- A vertical border scan that reports a foreground pixel has one in its
scanned column range. -/
theorem probeV_true (img : Img) (a b fixed : Int)
    (h : (probeV img a b fixed).1 = true) :
    ∃ yy : Int, a ≤ yy ∧ yy ≤ b ∧ img.get fixed yy = true := by
  obtain ⟨x, h1, h2, h3⟩ := (containsBlackPoint_true img a b fixed false).1 h
  exact ⟨x, h1, h2, h3⟩

theorem probeH_true (img : Img) (a b fixed : Int)
    (h : (probeH img a b fixed).1 = true) :
    ∃ xx : Int, a ≤ xx ∧ xx ≤ b ∧ img.get xx fixed = true := by
  obtain ⟨x, h1, h2, h3⟩ := (containsBlackPoint_true img a b fixed true).1 h
  exact ⟨x, h1, h2, h3⟩

/-- The pass invariant of Phase 1: the window bounds are ordered and strictly
inside the image. -/
def P1Inv (w h : Int) (s : P1State) : Prop :=
  0 ≤ s.left ∧ s.left ≤ s.right ∧ s.right < w ∧
  0 ≤ s.up ∧ s.up ≤ s.down ∧ s.down < h

/-- A pixel is inside the image. -/
def inBounds (w h : Int) (p : Pt) : Prop :=
  0 ≤ p.1 ∧ p.1 < w ∧ 0 ≤ p.2 ∧ p.2 < h

/-- Every pixel probed during one Phase-1 pass (whether it fails or not) lies
inside the image. -/
theorem phase1Step_probes (img : Img) (w h : Int) (s : P1State)
    (hinv : P1Inv w h s) :
    ∀ p ∈ (phase1Step img w h s).2, inBounds w h p := by
  obtain ⟨hi1, hi2, hi3, hi4, hi5, hi6⟩ := hinv
  have hR : ∀ p ∈ (growUp w (probeV img s.up s.down) s.right s.foundR).probes,
      inBounds w h p := by
    intro p hp
    obtain ⟨pos, hp1, hp2, hp3⟩ := growUpAux_probes _ _ _ _ p hp
    obtain ⟨yy, hy1, hy2, hy3⟩ := probeV_probes img s.up s.down pos p hp3
    rw [hy3]
    exact ⟨by omega, by omega, by omega, by omega⟩
  unfold phase1Step
  set gR := growUp w (probeV img s.up s.down) s.right s.foundR with hgR
  by_cases h1 : w ≤ gR.bound
  · rw [if_pos h1]
    exact hR
  · rw [if_neg h1]
    have hB : ∀ p ∈ (growUp h (probeH img s.left gR.bound) s.down
        s.foundB).probes, inBounds w h p := by
      intro p hp
      obtain ⟨pos, hp1, hp2, hp3⟩ := growUpAux_probes _ _ _ _ p hp
      obtain ⟨xx, hx1, hx2, hx3⟩ := probeH_probes img s.left gR.bound pos p hp3
      rw [hx3]
      exact ⟨by omega, by omega, by omega, by omega⟩
    set gB := growUp h (probeH img s.left gR.bound) s.down s.foundB with hgB
    by_cases h2 : h ≤ gB.bound
    · rw [if_pos h2]
      intro p hp
      rcases List.mem_append.1 hp with hp | hp
      · exact hR p hp
      · exact hB p hp
    · rw [if_neg h2]
      have hL : ∀ p ∈ (growDown (probeV img s.up gB.bound) s.left
          s.foundL).probes, inBounds w h p := by
        intro p hp
        obtain ⟨pos, hp1, hp2, hp3⟩ := growDownAux_probes _ _ _ _ p hp
        obtain ⟨yy, hy1, hy2, hy3⟩ := probeV_probes img s.up gB.bound pos p hp3
        rw [hy3]
        have : (s.left + 1).toNat = s.left + 1 := by omega
        refine ⟨by omega, by omega, by omega, by omega⟩
      set gL := growDown (probeV img s.up gB.bound) s.left s.foundL with hgL
      by_cases h3 : gL.bound < 0
      · rw [if_pos h3]
        intro p hp
        rcases List.mem_append.1 hp with hp | hp
        · rcases List.mem_append.1 hp with hp | hp
          · exact hR p hp
          · exact hB p hp
        · exact hL p hp
      · rw [if_neg h3]
        have hT : ∀ p ∈ (growDown (probeH img gL.bound gR.bound) s.up
            s.foundT).probes, inBounds w h p := by
          intro p hp
          obtain ⟨pos, hp1, hp2, hp3⟩ := growDownAux_probes _ _ _ _ p hp
          obtain ⟨xx, hx1, hx2, hx3⟩ := probeH_probes img gL.bound gR.bound
            pos p hp3
          rw [hx3]
          have : (s.up + 1).toNat = s.up + 1 := by omega
          refine ⟨by omega, by omega, by omega, by omega⟩
        set gT := growDown (probeH img gL.bound gR.bound) s.up s.foundT
          with hgT
        by_cases h4 : gT.bound < 0
        · rw [if_pos h4]
          intro p hp
          rcases List.mem_append.1 hp with hp | hp
          · rcases List.mem_append.1 hp with hp | hp
            · rcases List.mem_append.1 hp with hp | hp
              · exact hR p hp
              · exact hB p hp
            · exact hL p hp
          · exact hT p hp
        · rw [if_neg h4]
          intro p hp
          rcases List.mem_append.1 hp with hp | hp
          · rcases List.mem_append.1 hp with hp | hp
            · rcases List.mem_append.1 hp with hp | hp
              · exact hR p hp
              · exact hB p hp
            · exact hL p hp
          · exact hT p hp

theorem growUp_bound_ge (lim : Int) (probe : Int → Bool × List Pt) (b : Int)
    (f : Bool) : b ≤ (growUp lim probe b f).bound :=
  growUpAux_bound_ge probe _ b f

theorem growDown_bound_le (probe : Int → Bool × List Pt) (b : Int) (f : Bool) :
    (growDown probe b f).bound ≤ b :=
  growDownAux_bound_le probe _ b f

/-- There is a foreground pixel in the column just right of the left border,
within the vertical range of the window. -/
def borderAdjL (img : Img) (s : P1State) : Prop :=
  ∃ yy : Int, s.up ≤ yy ∧ yy ≤ s.down ∧ img.get (s.left + 1) yy = true

/-- There is a foreground pixel in the column just left of the right border,
within the vertical range of the window. -/
def borderAdjR (img : Img) (s : P1State) : Prop :=
  ∃ yy : Int, s.up ≤ yy ∧ yy ≤ s.down ∧ img.get (s.right - 1) yy = true

/-- A successful pass preserves the window invariant. -/
theorem phase1Step_inv (img : Img) (w h : Int) (s : P1State) (m : Bool)
    (s2 : P1State) (hstep : (phase1Step img w h s).1 = .ok (m, s2))
    (hinv : P1Inv w h s) : P1Inv w h s2 := by
  obtain ⟨hb1, hb2, hb3, hb4, _, hs2⟩ := phase1Step_ok_inv img w h s m s2 hstep
  obtain ⟨hi1, hi2, hi3, hi4, hi5, hi6⟩ := hinv
  have hmR := growUp_bound_ge w (probeV img s.up s.down) s.right s.foundR
  have hmB := growUp_bound_ge h (probeH img s.left
    (growUp w (probeV img s.up s.down) s.right s.foundR).bound) s.down
    s.foundB
  have hmL := growDown_bound_le (probeV img s.up
    (growUp h (probeH img s.left
      (growUp w (probeV img s.up s.down) s.right s.foundR).bound) s.down
      s.foundB).bound) s.left s.foundL
  have hmT := growDown_bound_le (probeH img
    (growDown (probeV img s.up
      (growUp h (probeH img s.left
        (growUp w (probeV img s.up s.down) s.right s.foundR).bound) s.down
        s.foundB).bound) s.left s.foundL).bound
    (growUp w (probeV img s.up s.down) s.right s.foundR).bound) s.up
    s.foundT
  rw [hs2]
  unfold P1Inv
  dsimp only
  refine ⟨by omega, by omega, by omega, by omega, by omega, by omega⟩

/-- A successful pass preserves the left/right border-adjacency
invariants. -/
theorem phase1Step_adj (img : Img) (w h : Int) (s : P1State) (m : Bool)
    (s2 : P1State) (hstep : (phase1Step img w h s).1 = .ok (m, s2))
    (hL : s.foundL = true → borderAdjL img s)
    (hR : s.foundR = true → borderAdjR img s) :
    (s2.foundL = true → borderAdjL img s2) ∧
    (s2.foundR = true → borderAdjR img s2) := by
  obtain ⟨hb1, hb2, hb3, hb4, _, hs2⟩ := phase1Step_ok_inv img w h s m s2 hstep
  have hmB := growUp_bound_ge h (probeH img s.left
    (growUp w (probeV img s.up s.down) s.right s.foundR).bound) s.down
    s.foundB
  have hmT := growDown_bound_le (probeH img
    (growDown (probeV img s.up
      (growUp h (probeH img s.left
        (growUp w (probeV img s.up s.down) s.right s.foundR).bound) s.down
        s.foundB).bound) s.left s.foundL).bound
    (growUp w (probeV img s.up s.down) s.right s.foundR).bound) s.up
    s.foundT
  constructor
  · -- left invariant, transported through the left-growth loop
    intro hf2
    have hadj := growDownAux_adj (probeV img s.up
        (growUp h (probeH img s.left
          (growUp w (probeV img s.up s.down) s.right s.foundR).bound) s.down
          s.foundB).bound)
      (fun bnd => ∃ yy : Int, s.up ≤ yy ∧
        yy ≤ (growUp h (probeH img s.left
          (growUp w (probeV img s.up s.down) s.right s.foundR).bound) s.down
          s.foundB).bound ∧ img.get (bnd + 1) yy = true)
      (fun pos hpos => by
        obtain ⟨yy, hy1, hy2, hy3⟩ := probeV_true img _ _ pos hpos
        exact ⟨yy, hy1, hy2, by simpa using hy3⟩)
      (s.left + 1).toNat s.left s.foundL
      (fun hf => by
        obtain ⟨yy, hy1, hy2, hy3⟩ := hL hf
        exact ⟨yy, hy1, by omega, hy3⟩)
    rw [hs2] at hf2
    dsimp only at hf2
    obtain ⟨yy, hy1, hy2, hy3⟩ := hadj hf2
    rw [hs2]
    unfold borderAdjL
    dsimp only
    exact ⟨yy, by omega, by omega, hy3⟩
  · -- right invariant, transported through the right-growth loop
    intro hf2
    have hadj := growUpAux_adj (probeV img s.up s.down)
      (fun bnd => ∃ yy : Int, s.up ≤ yy ∧ yy ≤ s.down ∧
        img.get (bnd - 1) yy = true)
      (fun pos hpos => by
        obtain ⟨yy, hy1, hy2, hy3⟩ := probeV_true img _ _ pos hpos
        exact ⟨yy, hy1, hy2, by simpa using hy3⟩)
      (w - s.right).toNat s.right s.foundR
      (fun hf => by
        obtain ⟨yy, hy1, hy2, hy3⟩ := hR hf
        exact ⟨yy, hy1, hy2, hy3⟩)
    rw [hs2] at hf2
    dsimp only at hf2
    obtain ⟨yy, hy1, hy2, hy3⟩ := hadj hf2
    rw [hs2]
    unfold borderAdjR
    dsimp only
    exact ⟨yy, by omega, by omega, hy3⟩

theorem growUp_stop (lim : Int) (probe : Int → Bool × List Pt) (b : Int)
    (f : Bool) (hb : (growUp lim probe b f).bound < lim) :
    (probe (growUp lim probe b f).bound).1 = false ∧
      (growUp lim probe b f).found = true :=
  growUpAux_stop probe lim _ b f rfl hb

theorem growDown_stop (probe : Int → Bool × List Pt) (b : Int) (f : Bool)
    (hb : 0 ≤ (growDown probe b f).bound) :
    (probe (growDown probe b f).bound).1 = false ∧
      (growDown probe b f).found = true :=
  growDownAux_stop probe _ b f rfl hb

theorem growUp_nomove (lim : Int) (probe : Int → Bool × List Pt) (b : Int)
    (f : Bool) (hb : (growUp lim probe b f).bound < lim)
    (hm : (growUp lim probe b f).moved = false) :
    (growUp lim probe b f).bound = b ∧
      (growUp lim probe b f).found = f ∧ f = true :=
  growUpAux_nomove probe lim _ b f rfl hb hm

theorem growDown_nomove (probe : Int → Bool × List Pt) (b : Int) (f : Bool)
    (hb : 0 ≤ (growDown probe b f).bound)
    (hm : (growDown probe b f).moved = false) :
    (growDown probe b f).bound = b ∧
      (growDown probe b f).found = f ∧ f = true :=
  growDownAux_nomove probe _ b f rfl hb hm

/-- A pass that reports no border movement changed nothing: the state is
fixed, all four `atLeastOneBlackPointFound…` flags are set, and all four
border scans at the final window see only background. -/
theorem phase1Step_final (img : Img) (w h : Int) (s s2 : P1State)
    (hstep : (phase1Step img w h s).1 = .ok (false, s2)) :
    s2 = s ∧ s.foundR = true ∧ s.foundB = true ∧ s.foundL = true ∧
    s.foundT = true ∧
    (probeV img s.up s.down s.right).1 = false ∧
    (probeH img s.left s.right s.down).1 = false ∧
    (probeV img s.up s.down s.left).1 = false ∧
    (probeH img s.left s.right s.up).1 = false := by
  obtain ⟨hb1, hb2, hb3, hb4, hm, hs2⟩ :=
    phase1Step_ok_inv img w h s false s2 hstep
  have hm' := hm.symm
  rw [Bool.or_eq_false_iff, Bool.or_eq_false_iff, Bool.or_eq_false_iff] at hm'
  obtain ⟨⟨⟨hmR, hmB⟩, hmL⟩, hmT⟩ := hm'
  obtain ⟨hRb, hRf, hRt⟩ :=
    growUp_nomove w (probeV img s.up s.down) s.right s.foundR hb1 hmR
  obtain ⟨hRw, _⟩ :=
    growUp_stop w (probeV img s.up s.down) s.right s.foundR hb1
  rw [hRb] at hb2 hb3 hb4 hmB hmL hmT hs2 hRw
  obtain ⟨hBb, hBf, hBt⟩ :=
    growUp_nomove h (probeH img s.left s.right) s.down s.foundB hb2 hmB
  obtain ⟨hBw, _⟩ :=
    growUp_stop h (probeH img s.left s.right) s.down s.foundB hb2
  rw [hBb] at hb3 hb4 hmL hmT hs2 hBw
  obtain ⟨hLb, hLf, hLt⟩ :=
    growDown_nomove (probeV img s.up s.down) s.left s.foundL hb3 hmL
  obtain ⟨hLw, _⟩ :=
    growDown_stop (probeV img s.up s.down) s.left s.foundL hb3
  rw [hLb] at hb4 hmT hs2 hLw
  obtain ⟨hTb, hTf, hTt⟩ :=
    growDown_nomove (probeH img s.left s.right) s.up s.foundT hb4 hmT
  obtain ⟨hTw, _⟩ :=
    growDown_stop (probeH img s.left s.right) s.up s.foundT hb4
  rw [hTb] at hs2 hTw
  rw [hRf, hBf, hLf, hTf] at hs2
  refine ⟨?_, hRt, hBt, hLt, hTt, hRw, hBw, hLw, hTw⟩
  rw [hs2]

/-- Every pixel probed during Phase 1 lies inside the image, as long as the
starting state satisfies the window invariant. -/
theorem phase1_probes (img : Img) (w h : Int) :
    ∀ (fuel : Nat) (s : P1State), P1Inv w h s →
      ∀ p ∈ (phase1 img w h fuel s).2, inBounds w h p := by
  intro fuel
  induction fuel with
  | zero => intro s _ p hp; simp [phase1] at hp
  | succ n ih =>
    intro s hinv p hp
    simp only [phase1] at hp
    rcases hse : phase1Step img w h s with ⟨res, tr⟩
    rw [hse] at hp
    cases res with
    | error u =>
      dsimp only at hp
      exact phase1Step_probes img w h s hinv p (by rw [hse]; exact hp)
    | ok ms =>
      rcases ms with ⟨moved, s2⟩
      dsimp only at hp
      have hstep : (phase1Step img w h s).1 = .ok (moved, s2) := by rw [hse]
      by_cases hmv : moved = true
      · rw [if_pos hmv] at hp
        dsimp only at hp
        rcases List.mem_append.1 hp with hp | hp
        · exact phase1Step_probes img w h s hinv p (by rw [hse]; exact hp)
        · exact ih s2 (phase1Step_inv img w h s moved s2 hstep hinv) p hp
      · rw [if_neg hmv] at hp
        dsimp only at hp
        exact phase1Step_probes img w h s hinv p (by rw [hse]; exact hp)

/-- Postcondition of a stabilized Phase 1: the window invariant holds, both
vertical borders have an adjacent foreground pixel inside the window rows,
and all four border scans at the final window see only background. -/
theorem phase1_post (img : Img) (w h : Int) :
    ∀ (fuel : Nat) (s sf : P1State),
      (phase1 img w h fuel s).1 = some (.ok sf) →
      P1Inv w h s →
      (s.foundL = true → borderAdjL img s) →
      (s.foundR = true → borderAdjR img s) →
      P1Inv w h sf ∧ borderAdjL img sf ∧ borderAdjR img sf ∧
      (probeV img sf.up sf.down sf.right).1 = false ∧
      (probeH img sf.left sf.right sf.down).1 = false ∧
      (probeV img sf.up sf.down sf.left).1 = false ∧
      (probeH img sf.left sf.right sf.up).1 = false := by
  intro fuel
  induction fuel with
  | zero => intro s sf hres; simp [phase1] at hres
  | succ n ih =>
    intro s sf hres hinv hL hR
    simp only [phase1] at hres
    rcases hse : phase1Step img w h s with ⟨res, tr⟩
    rw [hse] at hres
    cases res with
    | error u => dsimp only at hres; exact absurd hres (by simp)
    | ok ms =>
      rcases ms with ⟨moved, s2⟩
      dsimp only at hres
      have hstep : (phase1Step img w h s).1 = .ok (moved, s2) := by rw [hse]
      by_cases hmv : moved = true
      · rw [if_pos hmv] at hres
        dsimp only at hres
        have hadj := phase1Step_adj img w h s moved s2 hstep hL hR
        exact ih s2 sf hres (phase1Step_inv img w h s moved s2 hstep hinv)
          hadj.1 hadj.2
      · rw [if_neg hmv] at hres
        dsimp only at hres
        simp only [Option.some.injEq, Except.ok.injEq] at hres
        rw [Bool.not_eq_true] at hmv
        rw [hmv] at hstep
        obtain ⟨hfix, hRt, hBt, hLt, hTt, hRw, hBw, hLw, hTw⟩ :=
          phase1Step_final img w h s s2 hstep
        rw [← hres, hfix]
        exact ⟨hinv, hL hLt, hR hRt, hRw, hBw, hLw, hTw⟩

/-- Bracketing `intRound`: if `lo * den ≤ num ≤ hi * den` then the rounded
quotient lies in `[lo, hi]`. -/
theorem intRound_bracket (num den lo hi : Int) (hd : 0 < den)
    (h1 : lo * den ≤ num) (h2 : num ≤ hi * den) :
    lo ≤ intRound num den ∧ intRound num den ≤ hi :=
  ⟨intRound_ge num den lo hd (by nlinarith),
   intRound_le num den hi hd (by nlinarith)⟩

/-- Every pixel probed while rasterizing a segment stays inside the bounding
box of the segment's endpoints. -/
theorem gbpos_probe_bounds (img : Img) (aX aY bX bY : Int) (p : Pt)
    (hp : p ∈ (getBlackPointOnSegment img aX aY bX bY).2) :
    min aX bX ≤ p.1 ∧ p.1 ≤ max aX bX ∧
    min aY bY ≤ p.2 ∧ p.2 ≤ max aY bY := by
  unfold getBlackPointOnSegment at hp
  have hd0 := distRound_nonneg (bX - aX) (bY - aY)
  obtain ⟨k, hk0, hk1, hkp⟩ := gbposAux_probes img aX aY bX bY _ _ 0 p hp
  set d := distRound (bX - aX) (bY - aY) with hdd
  have hkd : k < d := by omega
  have hd : 0 < d := by omega
  subst hkp
  unfold segPoint
  rw [intRound_add_mul aX (k * (bX - aX)) d hd,
    intRound_add_mul aY (k * (bY - aY)) d hd]
  have hxb : min 0 (bX - aX) ≤ intRound (k * (bX - aX)) d ∧
      intRound (k * (bX - aX)) d ≤ max 0 (bX - aX) := by
    rcases le_total 0 (bX - aX) with hsg | hsg
    · have hb := intRound_bracket (k * (bX - aX)) d 0 (bX - aX) hd
        (by nlinarith) (by nlinarith)
      constructor
      · calc min 0 (bX - aX) ≤ 0 := by omega
          _ ≤ _ := hb.1
      · calc intRound (k * (bX - aX)) d ≤ bX - aX := hb.2
          _ ≤ max 0 (bX - aX) := by omega
    · have hb := intRound_bracket (k * (bX - aX)) d (bX - aX) 0 hd
        (by nlinarith) (by nlinarith)
      constructor
      · calc min 0 (bX - aX) ≤ bX - aX := by omega
          _ ≤ _ := hb.1
      · calc intRound (k * (bX - aX)) d ≤ 0 := hb.2
          _ ≤ max 0 (bX - aX) := by omega
  have hyb : min 0 (bY - aY) ≤ intRound (k * (bY - aY)) d ∧
      intRound (k * (bY - aY)) d ≤ max 0 (bY - aY) := by
    rcases le_total 0 (bY - aY) with hsg | hsg
    · have hb := intRound_bracket (k * (bY - aY)) d 0 (bY - aY) hd
        (by nlinarith) (by nlinarith)
      constructor
      · calc min 0 (bY - aY) ≤ 0 := by omega
          _ ≤ _ := hb.1
      · calc intRound (k * (bY - aY)) d ≤ bY - aY := hb.2
          _ ≤ max 0 (bY - aY) := by omega
    · have hb := intRound_bracket (k * (bY - aY)) d (bY - aY) 0 hd
        (by nlinarith) (by nlinarith)
      constructor
      · calc min 0 (bY - aY) ≤ bY - aY := by omega
          _ ≤ _ := hb.1
      · calc intRound (k * (bY - aY)) d ≤ 0 := hb.2
          _ ≤ max 0 (bY - aY) := by omega
  dsimp only
  obtain ⟨hx1, hx2⟩ := hxb
  obtain ⟨hy1, hy2⟩ := hyb
  refine ⟨by omega, by omega, by omega, by omega⟩

/-- A diagonal segment of slope `±1` and length at least `2` whose
first-inward diagonal neighbour of the start point is foreground is never
missed by the rasterizer: by the rounded-distance bounds the step count
exceeds the offset count, so some step rounds to offset `1` on both axes
simultaneously. -/
theorem gbpos_diag_hit (img : Img) (aX aY bX bY sx sy i : Int)
    (hbx : bX - aX = sx * i) (hby : bY - aY = sy * i)
    (hsx : sx = 1 ∨ sx = -1) (hsy : sy = 1 ∨ sy = -1) (hi : 2 ≤ i)
    (hblack : img.get (aX + sx) (aY + sy) = true) :
    (getBlackPointOnSegment img aX aY bX bY).1 ≠ none := by
  intro hnone
  rw [getBlackPointOnSegment_none_iff] at hnone
  rw [hbx, hby] at hnone
  have hsq : sx * i * (sx * i) + sy * i * (sy * i) = 2 * i * i := by
    rcases hsx with rfl | rfl <;> rcases hsy with rfl | rfl <;> ring
  obtain ⟨hd1, hd2, hd3⟩ :=
    distRound_bounds (sx * i) (sy * i) i (by omega) hsq
  have hdi := hd3 hi
  set d := distRound (sx * i) (sy * i) with hdd
  have hd : 0 < d := by omega
  obtain ⟨k, hk0, hkd, hlo, hhi⟩ :=
    exists_probe_index i d 1 (by omega) (by omega) hdi
  have hseg : segPoint aX aY bX bY d k = (aX + sx, aY + sy) := by
    unfold segPoint
    rw [hbx, hby, intRound_add_mul aX (k * (sx * i)) d hd,
      intRound_add_mul aY (k * (sy * i)) d hd]
    have hxoff : intRound (k * (sx * i)) d = sx := by
      rcases hsx with rfl | rfl
      · rw [show k * (1 * i) = k * i by ring]
        exact intRound_eq (k * i) d 1 hd (by linarith) (by linarith)
      · rw [show k * (-1 * i) = -(k * i) by ring]
        exact intRound_eq (-(k * i)) d (-1) hd (by linarith) (by linarith)
    have hyoff : intRound (k * (sy * i)) d = sy := by
      rcases hsy with rfl | rfl
      · rw [show k * (1 * i) = k * i by ring]
        exact intRound_eq (k * i) d 1 hd (by linarith) (by linarith)
      · rw [show k * (-1 * i) = -(k * i) by ring]
        exact intRound_eq (-(k * i)) d (-1) hd (by linarith) (by linarith)
    rw [hxoff, hyoff]
  have hmiss := hnone k hk0 hkd
  rw [hseg] at hmiss
  dsimp only at hmiss
  rw [hblack] at hmiss
  exact absurd hmiss (by simp)

/-- Probes of a Phase-2 diagonal corner scan (corner `(X, Y)`, horizontal
direction `sx`, vertical direction `sy`): when the diagonal neighbour
`(X + sx, Y - sy * (i0 - 1))` of the corner's `i0`-th start point is
foreground (for some admissible offset `i0 ≥ 2`), every probed pixel comes
from a segment of offset `i ≤ i0` and stays in that segment's bounding
box. -/
theorem diagScan_probes (img : Img) (X Y sx sy : Int)
    (seg : Int → Option Pt × List Pt)
    (hseg : ∀ i : Int, seg i =
      getBlackPointOnSegment img X (Y - sy * i) (X + sx * i) Y)
    (hsx : sx = 1 ∨ sx = -1) (hsy : sy = 1 ∨ sy = -1)
    (i0 : Int) (hi0 : 2 ≤ i0)
    (hblack : img.get (X + sx) (Y - sy * (i0 - 1)) = true)
    (maxSize : Int) (p : Pt)
    (hp : p ∈ (scanCorner seg maxSize).2) :
    ∃ i : Int, 1 ≤ i ∧ i ≤ maxSize - 1 ∧ i ≤ i0 ∧
      min X (X + sx * i) ≤ p.1 ∧ p.1 ≤ max X (X + sx * i) ∧
      min (Y - sy * i) Y ≤ p.2 ∧ p.2 ≤ max (Y - sy * i) Y := by
  unfold scanCorner at hp
  obtain ⟨i, hi1, hi2, hp2, hmiss⟩ := scanCornerAux_probes seg _ 1 p hp
  have hile : i ≤ maxSize - 1 := by omega
  have hii0 : i ≤ i0 := by
    by_contra hc
    push_neg at hc
    have hm := hmiss i0 (by omega) (by omega)
    rw [hseg] at hm
    exact gbpos_diag_hit img X (Y - sy * i0) (X + sx * i0) Y sx sy i0
      (by ring) (by ring) hsx hsy hi0
      (by rw [show Y - sy * i0 + sy = Y - sy * (i0 - 1) by ring]
          exact hblack) hm
  rw [hseg] at hp2
  have hb := gbpos_probe_bounds img X (Y - sy * i) (X + sx * i) Y p hp2
  exact ⟨i, hi1, hile, hii0, hb.1, hb.2.1, hb.2.2.1, hb.2.2.2⟩

/-- A horizontal border scan that reports only background really saw only
background on the whole scanned range. -/
theorem probeH_false (img : Img) (a b fixed xx : Int)
    (h : (probeH img a b fixed).1 = false) (h1 : a ≤ xx) (h2 : xx ≤ b) :
    img.get xx fixed = false := by
  unfold probeH at h
  by_contra hc
  rw [Bool.not_eq_false] at hc
  have htrue : (containsBlackPoint img a b fixed true).1 = true :=
    (containsBlackPoint_true img a b fixed true).2
      ⟨xx, h1, h2, by simpa [pixAt, cbpPix] using hc⟩
  rw [htrue] at h
  exact Bool.noConfusion h

/-- A corner scan with window width at most `1` probes nothing. -/
theorem scanCorner_empty (seg : Int → Option Pt × List Pt) (m : Int)
    (hm : m ≤ 1) : (scanCorner seg m).2 = [] := by
  unfold scanCorner
  rw [show (m - 1).toNat = 0 from by omega]
  rfl

/-- Every pixel probed by Phase 2 comes from one of the four corner
scans. -/
theorem phase2_trace_sub (img : Img) (W left right up down : Int) (p : Pt)
    (hp : p ∈ (phase2 img W left right up down).2) :
    p ∈ (zScan img left right up down).2 ∨
    p ∈ (tScan img left right up down).2 ∨
    p ∈ (xScan img left right up down).2 ∨
    p ∈ (yScan img left right up down).2 := by
  unfold phase2 at hp
  dsimp only at hp
  rcases hz : (zScan img left right up down).1 with _ | z
  · rw [hz] at hp
    exact Or.inl hp
  · rw [hz] at hp
    rcases ht : (tScan img left right up down).1 with _ | t
    · rw [ht] at hp
      rcases List.mem_append.1 hp with h | h
      · exact Or.inl h
      · exact Or.inr (Or.inl h)
    · rw [ht] at hp
      rcases hx : (xScan img left right up down).1 with _ | x
      · rw [hx] at hp
        rcases List.mem_append.1 hp with h | h
        · rcases List.mem_append.1 h with h | h
          · exact Or.inl h
          · exact Or.inr (Or.inl h)
        · exact Or.inr (Or.inr (Or.inl h))
      · rw [hx] at hp
        rcases hy : (yScan img left right up down).1 with _ | yv
        · rw [hy] at hp
          rcases List.mem_append.1 hp with h | h
          · rcases List.mem_append.1 h with h | h
            · rcases List.mem_append.1 h with h | h
              · exact Or.inl h
              · exact Or.inr (Or.inl h)
            · exact Or.inr (Or.inr (Or.inl h))
          · exact Or.inr (Or.inr (Or.inr h))
        · rw [hy] at hp
          rcases List.mem_append.1 hp with h | h
          · rcases List.mem_append.1 h with h | h
            · rcases List.mem_append.1 h with h | h
              · exact Or.inl h
              · exact Or.inr (Or.inl h)
            · exact Or.inr (Or.inr (Or.inl h))
          · exact Or.inr (Or.inr (Or.inr h))

/-- Every pixel probed by Phase 2 lies inside the image, given the Phase-1
postcondition: an in-image ordered window whose left and right borders both
have an adjacent foreground pixel inside the window rows, while the top and
bottom window rows are all background. -/
theorem phase2_probes (img : Img) (w h W left right up down : Int)
    (hi1 : 0 ≤ left) (hi2 : left ≤ right) (hi3 : right < w)
    (hi4 : 0 ≤ up) (hi5 : up ≤ down) (hi6 : down < h)
    (hadjL : ∃ y0 : Int, up ≤ y0 ∧ y0 ≤ down ∧ img.get (left + 1) y0 = true)
    (hadjR : ∃ y1 : Int, up ≤ y1 ∧ y1 ≤ down ∧ img.get (right - 1) y1 = true)
    (hwT : (probeH img left right up).1 = false)
    (hwB : (probeH img left right down).1 = false) :
    ∀ p ∈ (phase2 img W left right up down).2, inBounds w h p := by
  intro p hp
  by_cases hdeg : right ≤ left + 1
  · exfalso
    rcases phase2_trace_sub img W left right up down p hp with hm | hm | hm | hm
    · unfold zScan at hm
      rw [scanCorner_empty _ _ (by omega)] at hm
      exact absurd hm (by simp)
    · unfold tScan at hm
      rw [scanCorner_empty _ _ (by omega)] at hm
      exact absurd hm (by simp)
    · unfold xScan at hm
      rw [scanCorner_empty _ _ (by omega)] at hm
      exact absurd hm (by simp)
    · unfold yScan at hm
      rw [scanCorner_empty _ _ (by omega)] at hm
      exact absurd hm (by simp)
  · push_neg at hdeg
    obtain ⟨y0, hy01, hy02, hy03⟩ := hadjL
    obtain ⟨y1, hy11, hy12, hy13⟩ := hadjR
    have hgTL : img.get (left + 1) up = false :=
      probeH_false img left right up (left + 1) hwT (by omega) (by omega)
    have hgBL : img.get (left + 1) down = false :=
      probeH_false img left right down (left + 1) hwB (by omega) (by omega)
    have hgTR : img.get (right - 1) up = false :=
      probeH_false img left right up (right - 1) hwT (by omega) (by omega)
    have hgBR : img.get (right - 1) down = false :=
      probeH_false img left right down (right - 1) hwB (by omega) (by omega)
    have hy0a : up + 1 ≤ y0 := by
      have hne : y0 ≠ up := by
        intro he; rw [he, hgTL] at hy03; exact Bool.noConfusion hy03
      omega
    have hy0b : y0 ≤ down - 1 := by
      have hne : y0 ≠ down := by
        intro he; rw [he, hgBL] at hy03; exact Bool.noConfusion hy03
      omega
    have hy1a : up + 1 ≤ y1 := by
      have hne : y1 ≠ up := by
        intro he; rw [he, hgTR] at hy13; exact Bool.noConfusion hy13
      omega
    have hy1b : y1 ≤ down - 1 := by
      have hne : y1 ≠ down := by
        intro he; rw [he, hgBR] at hy13; exact Bool.noConfusion hy13
      omega
    rcases phase2_trace_sub img W left right up down p hp with hm | hm | hm | hm
    · unfold zScan at hm
      obtain ⟨i, ha, hb, hc, hm1, hm2, hm3, hm4⟩ :=
        diagScan_probes img left down 1 1 _
          (fun i => by simp only [one_mul])
          (Or.inl rfl) (Or.inl rfl) (1 + down - y0) (by omega)
          (by rw [show down - 1 * (1 + down - y0 - 1) = y0 from by omega]
              exact hy03)
          (right - left) p hm
      exact ⟨by omega, by omega, by omega, by omega⟩
    · unfold tScan at hm
      obtain ⟨i, ha, hb, hc, hm1, hm2, hm3, hm4⟩ :=
        diagScan_probes img left up 1 (-1) _
          (fun i => by
            simp only [one_mul]
            rw [show up - (-1 : Int) * i = up + i from by ring])
          (Or.inl rfl) (Or.inr rfl) (1 + y0 - up) (by omega)
          (by rw [show up - (-1 : Int) * (1 + y0 - up - 1) = y0 from by omega]
              exact hy03)
          (right - left) p hm
      exact ⟨by omega, by omega, by omega, by omega⟩
    · unfold xScan at hm
      obtain ⟨i, ha, hb, hc, hm1, hm2, hm3, hm4⟩ :=
        diagScan_probes img right up (-1) (-1) _
          (fun i => by
            rw [show up - (-1 : Int) * i = up + i from by ring,
              show right + (-1 : Int) * i = right - i from by ring])
          (Or.inr rfl) (Or.inr rfl) (1 + y1 - up) (by omega)
          (by rw [show up - (-1 : Int) * (1 + y1 - up - 1) = y1 from by omega]
              exact hy13)
          (right - left) p hm
      exact ⟨by omega, by omega, by omega, by omega⟩
    · unfold yScan at hm
      obtain ⟨i, ha, hb, hc, hm1, hm2, hm3, hm4⟩ :=
        diagScan_probes img right down (-1) 1 _
          (fun i => by
            simp only [one_mul]
            rw [show right + (-1 : Int) * i = right - i from by ring])
          (Or.inr rfl) (Or.inl rfl) (1 + down - y1) (by omega)
          (by rw [show down - 1 * (1 + down - y1 - 1) = y1 from by omega]
              exact hy13)
          (right - left) p hm
      exact ⟨by omega, by omega, by omega, by omega⟩

/-- With an inverted vertical window (`down < up`, as produced by a negative
`halfsize`) every border scan has an empty range, so the first pass silently
runs the right bound to the image edge and fails without probing a single
pixel. -/
theorem phase1Step_degenerate (img : Img) (w h : Int) (s : P1State)
    (hud : s.down < s.up) (hf : s.foundR = false) :
    phase1Step img w h s = (.error (), []) := by
  have hall : ∀ pos : Int, probeV img s.up s.down pos = (false, []) := by
    intro pos
    unfold probeV containsBlackPoint
    rw [show (s.down - s.up + 1).toNat = 0 from by omega]
    rfl
  have hwprobe : ∀ pos : Int, (probeV img s.up s.down pos).1 = false := by
    intro pos; rw [hall pos]
  obtain ⟨hbnd, _⟩ := growUpAux_allwhite (probeV img s.up s.down) hwprobe
    ((w - s.right).toNat) s.right
  unfold phase1Step
  dsimp only
  unfold growUp
  rw [hf]
  rw [if_pos (by omega :
    w ≤ (growUpAux (probeV img s.up s.down) ((w - s.right).toNat) s.right
      false).bound)]
  have htr : (growUpAux (probeV img s.up s.down) ((w - s.right).toNat)
      s.right false).probes = [] := by
    rw [List.eq_nil_iff_forall_not_mem]
    intro q hq
    obtain ⟨xx, _, _, hmem⟩ := growUpAux_probes _ _ _ _ q hq
    rw [hall xx] at hmem
    exact absurd hmem (by simp)
  rw [htr]

/-- A detector whose initial vertical window is inverted probes nothing at
all. -/
theorem detect_trace_degenerate (d : WhiteRectangleDetector)
    (hud : d.downInit < d.upInit) :
    ∀ fuel : Nat, (d.detect fuel).2 = [] := by
  intro fuel
  have hstep := phase1Step_degenerate d.image d.width d.height d.initState
    hud rfl
  cases fuel with
  | zero => rfl
  | succ n =>
    have hph : phase1 d.image d.width d.height (n + 1) d.initState =
        (some (.error ()), []) := by
      simp only [phase1]
      rw [hstep]
    unfold WhiteRectangleDetector.detect
    dsimp only
    rw [hph]

/-- CLAIM C10: memory safety of `WhiteRectangleDetector::detect` — every
pixel the detector reads through `image.get`, in either phase and whether it
succeeds, fails with `NotFoundException` or runs out of fuel, lies inside
the image bounds of the detector built by `new`. -/
theorem claim_C10 (img : Img) (initSize x y : Int)
    (d : WhiteRectangleDetector)
    (hnew : WhiteRectangleDetector.new img initSize x y = some d)
    (fuel : Nat) (p : Pt) (hp : p ∈ (d.detect fuel).2) :
    inBounds img.w img.h p := by
  obtain ⟨him, hwq, hhq, hlI, hrI, huI, hdI, h0u, h0l, hdh, hrw⟩ :=
    WhiteRectangleDetector.new_spec img initSize x y d hnew
  by_cases hhs : initSize.tdiv 2 < 0
  · rw [detect_trace_degenerate d (by omega) fuel] at hp
    exact absurd hp (by simp)
  · push_neg at hhs
    have hinv : P1Inv d.width d.height d.initState := by
      unfold P1Inv WhiteRectangleDetector.initState
      dsimp only
      omega
    unfold WhiteRectangleDetector.detect at hp
    dsimp only at hp
    rcases hp1 : phase1 d.image d.width d.height fuel d.initState
      with ⟨r1, tr1⟩
    rw [hp1] at hp
    have hP1mem : ∀ q ∈ tr1, inBounds img.w img.h q := by
      intro q hq
      have hb := phase1_probes d.image d.width d.height fuel d.initState hinv
        q (by rw [hp1]; exact hq)
      rw [hwq, hhq] at hb
      exact hb
    cases r1 with
    | none => exact hP1mem p hp
    | some e =>
      cases e with
      | error u => exact hP1mem p hp
      | ok sf =>
        dsimp only at hp
        rcases List.mem_append.1 hp with hp | hp
        · exact hP1mem p hp
        · obtain ⟨hinvf, hadjL, hadjR, hRw, hBw, hLw, hTw⟩ :=
            phase1_post d.image d.width d.height fuel d.initState sf
              (by rw [hp1]) hinv
              (fun hc => Bool.noConfusion hc)
              (fun hc => Bool.noConfusion hc)
          obtain ⟨f1, f2, f3, f4, f5, f6⟩ := hinvf
          have hb := phase2_probes d.image d.width d.height d.width
            sf.left sf.right sf.up sf.down f1 f2 f3 f4 f5 f6
            hadjL hadjR hTw hBw p hp
          rw [hwq, hhq] at hb
          exact hb

theorem claim_C10_witness : inBounds ordImg9.w ordImg9.h ((4 : Int), (1 : Int)) :=
  claim_C10 ordImg9 2 3 2 ordDet9 (by rfl) 100 (4, 1) (by decide)
